import Mathlib

/-!
# massFits_costh.C : naming of selections, repeated fits, mixture fractions

A shallow embedding of `src/massFits_costh.C`.

* Texts are `String`s; the work on characters is done on `List Char`.
* A `double` is modelled by `Dbl`: sign, integer significand and binary
  exponent (value `m * 2^e`), plus the infinities and NaNs.
* `operator<<` of a `double` on a fresh `std::stringstream` is the C `%g`
  conversion with precision 6 (`Dbl.render`).
* `std::regex_replace` with the two patterns of the file is modelled by a
  backtracking matcher for `([0-9]+) SEP ([0-9]+)` (`regexReplace`); one
  `Char` stands for one `char`, so the texts are taken to be ASCII.
* The formula engine that evaluates a selection text is external; on the one
  shape that `getBinExpr` writes it is modelled by `evalBinExpr`, which reads
  the two numerals back as the nearest doubles.
* The workspace, the formula engine and the minimizer of the external fitting
  library are modelled by a record of named lists and two function parameters.
* The fraction of the last component of the mixture is computed by the fitting
  library; it is modelled as one minus the declared fractions, subtracted in
  turn in double arithmetic (`Dbl.sub`, `lastFraction`).
-/

namespace MassFits

/-! ## Doubles and their stream rendering -/

/-- A `double`: `fin neg m e` is `(-1)^neg * m * 2^e`. -/
inductive Dbl where
  | fin (neg : Bool) (m : Nat) (e : Int)
  | inf (neg : Bool)
  | nan (neg : Bool)
  deriving DecidableEq, Repr

/-- Numerator of the magnitude `m * 2^e` written as a fraction. -/
def fracNum (m : Nat) (e : Int) : Nat := m * 2 ^ e.toNat

/-- Denominator of the magnitude `m * 2^e` written as a fraction. -/
def fracDen (e : Int) : Nat := 2 ^ (-e).toNat

/-- Nearest integer to `n / d`, ties to the even neighbour. -/
def roundHalfEven (n d : Nat) : Nat :=
  let q := n / d
  let r := n % d
  if 2 * r < d then q
  else if d < 2 * r then q + 1
  else if q % 2 = 0 then q else q + 1

/-- Smallest `k` at or above the start value with `d ≤ n * 10^k`, searched with fuel. -/
def scaleUp : Nat → Nat → Nat → Nat → Nat
  | 0, _, _, k => k
  | f + 1, n, d, k => if d ≤ n * 10 ^ k then k else scaleUp f n d (k + 1)

/-- Decimal exponent `X` of `n / d > 0`: `10^X ≤ n / d < 10^(X+1)`. -/
def decExp (n d : Nat) : Int :=
  if d ≤ n then (((Nat.toDigits 10 (n / d)).length - 1 : Nat) : Int)
  else - ((scaleUp d n d 1 : Nat) : Int)

/-- The six significant decimal digits of `n / d > 0` as a number `r` with
`10^5 ≤ r < 10^6`, and the decimal exponent after rounding. -/
def sigDigits (n d : Nat) : Nat × Int :=
  let X := decExp n d
  let r := if X ≤ 5 then roundHalfEven (n * 10 ^ (5 - X).toNat) d
           else roundHalfEven n (d * 10 ^ (X - 5).toNat)
  if r = 10 ^ 6 then (10 ^ 5, X + 1) else (r, X)

/-- The last `k` decimal digits of `r`, most significant first. -/
def lastDigits : Nat → Nat → List Char
  | 0, _ => []
  | k + 1, r => lastDigits k (r / 10) ++ [Nat.digitChar (r % 10)]

/-- Removal of trailing zeros. -/
def stripZeros (ds : List Char) : List Char :=
  (ds.reverse.dropWhile (fun c => c == '0')).reverse

/-- Digits of a decimal exponent: at least two. -/
def expDigits (k : Nat) : List Char :=
  if k < 10 then ['0', Nat.digitChar k] else Nat.toDigits 10 k

/-- The pieces of a printed number: sign, integer digits, fraction digits
(empty when no decimal point is printed) and exponent (sign, digits). -/
structure NumParts where
  neg : Bool
  int : List Char
  frac : List Char
  exp : Option (Bool × List Char)
  deriving DecidableEq, Repr

/-- Sign text. -/
def signText (neg : Bool) : List Char := if neg then ['-'] else []

/-- Exponent text. -/
def expText : Option (Bool × List Char) → List Char
  | none => []
  | some (eneg, ds) => 'e' :: (if eneg then '-' else '+') :: ds

/-- The pieces put together, with `point` as the decimal point. -/
def NumParts.textWith (point : Char) (p : NumParts) : List Char :=
  signText p.neg ++ (p.int ++ ((if p.frac.isEmpty then [] else point :: p.frac) ++ expText p.exp))

/-- Conversion `%g` with precision 6 of the magnitude `n / d`: style `e` when the
decimal exponent is below `-4` or at least `6`, style `f` otherwise, trailing
zeros and a trailing decimal point removed. -/
def genParts (neg : Bool) (n d : Nat) : NumParts :=
  if n = 0 then ⟨neg, ['0'], [], none⟩
  else
    let rX := sigDigits n d
    let ds := lastDigits 6 rX.1
    let X := rX.2
    if X < -4 ∨ 6 ≤ X then
      ⟨neg, ds.take 1, stripZeros (ds.drop 1), some (decide (X < 0), expDigits X.natAbs)⟩
    else if 0 ≤ X then
      ⟨neg, ds.take (X.toNat + 1), stripZeros (ds.drop (X.toNat + 1)), none⟩
    else
      ⟨neg, ['0'], stripZeros (List.replicate ((-X).toNat - 1) '0' ++ ds), none⟩

/-- Characters written by `sstr << x` for a `double` on a stream in its default
state (general notation, precision 6). -/
def Dbl.render : Dbl → List Char
  | .fin neg m e => (genParts neg (fracNum m e) (fracDen e)).textWith '.'
  | .inf neg => signText neg ++ ['i', 'n', 'f']
  | .nan neg => signText neg ++ ['n', 'a', 'n']

/-- Text written by `sstr << x`. -/
def Dbl.str (x : Dbl) : String := ⟨x.render⟩

/-! ### Literals: rounding a decimal to the nearest double -/

/-- Largest `k` below the start value plus fuel with `d * 2^k ≤ n`, counted upwards. -/
def binUp : Nat → Nat → Nat → Nat → Nat
  | 0, _, _, k => k
  | f + 1, n, d, k => if d * 2 ^ (k + 1) ≤ n then binUp f n d (k + 1) else k

/-- Smallest `k` with `d ≤ n * 2^k`, counted upwards. -/
def binDown : Nat → Nat → Nat → Nat → Nat
  | 0, _, _, k => k
  | f + 1, n, d, k => if d ≤ n * 2 ^ k then k else binDown f n d (k + 1)

/-- Binary exponent `b` of `n / d > 0`: `2^b ≤ n / d < 2^(b+1)`. -/
def binExp (n d : Nat) : Int :=
  if d ≤ n then ((binUp n n d 0 : Nat) : Int) else - ((binDown d n d 1 : Nat) : Int)

/-- The binary64 value nearest to `n / d` (ties to even), with sign `neg`. -/
def toDouble (neg : Bool) (n d : Nat) : Dbl :=
  if n = 0 ∨ d = 0 then .fin neg 0 0
  else
    let e0 := binExp n d - 52
    let e := if e0 < -1074 then -1074 else e0
    let m := if 0 ≤ e then roundHalfEven n (d * 2 ^ e.toNat)
             else roundHalfEven (n * 2 ^ (-e).toNat) d
    let me := if m = 2 ^ 53 then ((2 : Nat) ^ 52, e + 1) else (m, e)
    if 971 < me.2 then .inf neg else .fin neg me.1 me.2

/-- A literal `n / 10^k` of the source. -/
def lit (n k : Nat) : Dbl := toDouble false n (10 ^ k)

/-! ## The regular-expression substitution -/

/-- The atom between the two groups: the escaped point of the pattern in
`getBinName`, or the unescaped point of the pattern in `getCutName`, which
accepts every character but a line terminator. -/
inductive Sep where
  | dot
  | any
  deriving DecidableEq, Repr

/-- Characters accepted by the atom. -/
def Sep.accepts : Sep → Char → Bool
  | .dot, c => c == '.'
  | .any, c => c != Char.ofNat 10 && c != Char.ofNat 13

/-- After the first group `g1`: the atom, then the greedy second group
`([0-9]+)`. Gives both groups. -/
def groupTwo (sep : Sep) (g1 after : List Char) : Option (List Char × List Char) :=
  match after with
  | [] => none
  | c :: t =>
    if sep.accepts c then
      let g2 := t.takeWhile Char.isDigit
      if g2.isEmpty then none else some (g1, g2)
    else none

/-- The first group `([0-9]+)` with the digits `g1` already taken: one more digit
is taken, then a longer group is tried first (greedy) and the rest of the
pattern second (backtracking). -/
def matchFrom (sep : Sep) : List Char → List Char → Option (List Char × List Char)
  | _, [] => none
  | g1, c :: t =>
    if c.isDigit then
      match matchFrom sep (g1 ++ [c]) t with
      | some r => some r
      | none => groupTwo sep (g1 ++ [c]) t
    else none

/-- Match of `([0-9]+) SEP ([0-9]+)` starting at the head of the text. -/
def matchHere (sep : Sep) (s : List Char) : Option (List Char × List Char) :=
  matchFrom sep [] s

/-- Scan of `std::regex_replace(text, pattern, "$1p$2")`: `skip` characters of a
match already written are passed over; at every other position the leftmost
match is looked for, a match is written as `$1p$2`, a character without a match
is copied. -/
def replaceSkip (sep : Sep) : Nat → List Char → List Char
  | _, [] => []
  | k + 1, _ :: t => replaceSkip sep k t
  | 0, c :: t =>
    match matchHere sep (c :: t) with
    | some (g1, g2) => g1 ++ 'p' :: g2 ++ replaceSkip sep (g1.length + g2.length) t
    | none => c :: replaceSkip sep 0 t

/-- Model of `std::regex_replace(s, std::regex("([0-9]+) SEP ([0-9]+)"), "$1p$2")`. -/
def regexReplace (sep : Sep) (s : String) : String := ⟨replaceSkip sep 0 s.data⟩

/-! ## Names and selection texts -/

/-- Index `bin - 1` computed in `size_t`. -/
def prevIndex (bin : Nat) : Nat := (bin + (2 ^ 64 - 1)) % 2 ^ 64

/-- Model of `getBinExpr`; `none` when an index is outside the array. -/
def getBinExpr (binning : List Dbl) (bin : Nat) (var : String) : Option String := do
  let lo ← binning[prevIndex bin]?
  let hi ← binning[bin]?
  pure ("(" ++ var ++ " > " ++ lo.str ++ " && " ++ var ++ " < " ++ hi.str ++ ")")

/-- Model of `getBinName`; `none` when an index is outside the array. -/
def getBinName (binning : List Dbl) (bin : Nat) (var : String) : Option String := do
  let lo ← binning[prevIndex bin]?
  let hi ← binning[bin]?
  pure (regexReplace .dot (var ++ "_" ++ lo.str ++ "to" ++ hi.str))

/-- Model of `getCutString`. -/
def getCutString (var : String) (val : Dbl) : String := var ++ " > " ++ val.str

/-- Model of `getCutName`. -/
def getCutName (var : String) (val : Dbl) : String :=
  regexReplace .any (var ++ "_" ++ val.str)

/-- Model of `struct Cuts`: two arrays of two doubles. -/
structure Cuts where
  pT : Dbl × Dbl
  Nch : Dbl × Dbl
  deriving DecidableEq, Repr

/-- A `std::array<double, 2>` as a list. -/
def arr2 (a : Dbl × Dbl) : List Dbl := [a.1, a.2]

/-- Model of `Cuts::getCutString`. -/
def Cuts.getCutString (c : Cuts) : Option String := do
  let a ← getBinExpr (arr2 c.Nch) 1 "Nch"
  let b ← getBinExpr (arr2 c.pT) 1 "pT"
  pure (a ++ " && " ++ b)

/-- Model of `Cuts::getCutName`. -/
def Cuts.getCutName (c : Cuts) : Option String := do
  let a ← getBinName (arr2 c.Nch) 1 "Nch"
  let b ← getBinName (arr2 c.pT) 1 "pT"
  pure (a ++ "_" ++ b)

/-- The array `absCosThEdges` of `costhBinFits`. -/
def absCosThEdges : List Dbl :=
  [lit 0 1, lit 1 1, lit 2 1, lit 3 1, lit 4 1, lit 5 1, lit 6 1, lit 7 1, lit 8 1, lit 10 1]

/-- The array `nchCuts` of `NchCutFits`. -/
def nchCuts : List Dbl := [lit 2 0, lit 4 0, lit 5 0, lit 6 0, lit 8 0, lit 10 0]

/-- The constructor call `Cuts({p0, p1}, {n0, n1})` with integer literals. -/
def mkCuts (p0 p1 n0 n1 : Nat) : Cuts := ⟨(lit p0 0, lit p1 0), (lit n0 0, lit n1 0)⟩

/-- The vector `cuts` of `NchPtCutsFits`. -/
def cutsList : List Cuts :=
  [mkCuts 15 70 0 180, mkCuts 10 70 23 180, mkCuts 10 70 20 180, mkCuts 10 15 0 20,
   mkCuts 10 12 0 20, mkCuts 12 15 0 20, mkCuts 15 70 20 180, mkCuts 15 70 0 20,
   mkCuts 15 70 0 23]

/-! ## The substitution as the specification words it -/

/-- Whether the text starts with a digit. -/
def startsWithDigit : List Char → Bool
  | [] => false
  | c :: _ => c.isDigit

/-- Each decimal point that has a digit right before it and a digit right after
it becomes `p`; every other character is kept. `prev` tells whether the
character before the text is a digit. -/
def pointsToP : Bool → List Char → List Char
  | _, [] => []
  | prev, c :: t =>
    (if c == '.' && prev && startsWithDigit t then 'p' else c) :: pointsToP c.isDigit t

/-- The substitution of the specification on a whole text. -/
def substSpec (s : List Char) : List Char := pointsToP false s

/-- One character: a decimal point becomes `p`. -/
def dotToP (c : Char) : Char := if c == '.' then 'p' else c

/-- The rendering of a double with `p` written for the decimal point. -/
def Dbl.renderP : Dbl → List Char
  | .fin neg m e => (genParts neg (fracNum m e) (fracDen e)).textWith 'p'
  | .inf neg => signText neg ++ ['i', 'n', 'f']
  | .nan neg => signText neg ++ ['n', 'a', 'n']

/-- Characters that a rendered double is made of. -/
def numChar (c : Char) : Bool :=
  c.isDigit || c == '.' || c == '-' || c == '+' || c == 'e' || c == 'i' || c == 'n' ||
    c == 'f' || c == 'a'

/-- Printed pieces as `%g` writes them: digits only, and an integer part. -/
structure NumParts.WF (p : NumParts) : Prop where
  int_ne : p.int ≠ []
  int_digits : ∀ c ∈ p.int, c.isDigit = true
  frac_digits : ∀ c ∈ p.frac, c.isDigit = true
  exp_digits : ∀ eneg ds, p.exp = some (eneg, ds) → ∀ c ∈ ds, c.isDigit = true

/-! ## The workspace, the fits and the batch drivers -/

/-- A workspace in which `buildModel` has defined `fullModel`: the datasets, the
generic objects (fit results) and the snapshots, each by name in the order of
their registration, and the current values of the parameters of `fullModel`.
`R` is a record of a dataset, `P` a vector of parameter values, `F` a fit
result. -/
structure Workspace (R P F : Type) where
  data : List (String × List R)
  objects : List (String × F)
  snapshots : List (String × P)
  params : P

/-- The external collaborators: the formula engine that tells whether a record
passes a cut text, and the minimizer that takes the start values of the
parameters and a dataset and gives the end values and a fit result. -/
structure Fitter (R P F : Type) where
  select : String → R → Bool
  fitTo : P → List R → P × F

variable {R P F : Type}

/-- Whether a name is taken in a list of named entries. -/
def hasName {α : Type} (l : List (String × α)) (name : String) : Bool :=
  l.any (fun e => e.1 == name)

/-- Model of `ws->data(name)`: the dataset of that name, if any. -/
def Workspace.findData (ws : Workspace R P F) (name : String) : Option (List R) :=
  (ws.data.find? (fun e => e.1 == name)).map Prod.snd

/-- Model of `ws->import(dataset)`: a dataset whose name is taken is refused (the
library reports an error and the caller here ignores the status), any other is
added. -/
def Workspace.importData (ws : Workspace R P F) (name : String) (d : List R) :
    Workspace R P F :=
  if hasName ws.data name then ws else { ws with data := ws.data ++ [(name, d)] }

/-- Model of `ws->import(object)` with `replaceExisting` left false: an object
whose name is taken is refused, any other is added. -/
def Workspace.importObject (ws : Workspace R P F) (name : String) (r : F) :
    Workspace R P F :=
  if hasName ws.objects name then ws else { ws with objects := ws.objects ++ [(name, r)] }

/-- Model of `ws->saveSnapshot(name, params, true)`: the current values are
stored under the name, in the place of an older snapshot of that name. -/
def Workspace.saveSnapshot (ws : Workspace R P F) (name : String) : Workspace R P F :=
  { ws with snapshots := ws.snapshots.filter (fun e => !(e.1 == name)) ++ [(name, ws.params)] }

/-- Model of `doFit`; `none` when no dataset has the name `fullDataName` (the null
pointer is dereferenced). -/
def doFit (ext : Fitter R P F) (ws : Workspace R P F) (cut name fullDataName : String) :
    Option (Workspace R P F) :=
  match ws.findData fullDataName with
  | none => none
  | some fullData =>
    let binData := fullData.filter (ext.select cut)
    let ws1 := ws.importData ("data_" ++ name) binData
    let rlt := ext.fitTo ws1.params binData
    let ws2 := { ws1 with params := rlt.1 }
    let ws3 := ws2.importObject ("fitResults_" ++ name) rlt.2
    some (ws3.saveSnapshot ("snap_" ++ name))

/-- Model of `costhBinFits`: the loop `for (i = 1; i < absCosThEdges.size(); ++i)`. -/
def costhBinFits (ext : Fitter R P F) (ws : Workspace R P F) (fullDataName : String) :
    Option (Workspace R P F) :=
  (List.range' 1 (absCosThEdges.length - 1)).foldlM (fun ws i => do
    let cutString ← getBinExpr absCosThEdges i "TMath::Abs(costh_HX)"
    let binName ← getBinName absCosThEdges i "absCosth"
    doFit ext ws cutString binName fullDataName) ws

/-- Model of `NchCutFits`: the loop over `nchCuts`. -/
def NchCutFits (ext : Fitter R P F) (ws : Workspace R P F) (fullDataName : String) :
    Option (Workspace R P F) :=
  nchCuts.foldlM (fun ws cut =>
    doFit ext ws (getCutString "Nch" cut) (getCutName "Nch" cut) fullDataName) ws

/-- Model of `NchPtCutsFits`: the loop over `cuts`. -/
def NchPtCutsFits (ext : Fitter R P F) (ws : Workspace R P F) (fullDataName : String) :
    Option (Workspace R P F) :=
  cutsList.foldlM (fun ws c => do
    let cutStr ← c.getCutString
    let cutName ← c.getCutName
    doFit ext ws cutStr cutName fullDataName) ws

/-- One `doFit` call after another over a list of (cut text, name) pairs. -/
def fitAll (ext : Fitter R P F) (fullDataName : String) :
    Workspace R P F → List (String × String) → Option (Workspace R P F)
  | ws, [] => some ws
  | ws, s :: rest =>
    match doFit ext ws s.1 s.2 fullDataName with
    | none => none
    | some ws1 => fitAll ext fullDataName ws1 rest

/-- The (cut text, name) pairs of `costhBinFits`. -/
def costhSelections : List (String × String) :=
  [("(TMath::Abs(costh_HX) > 0 && TMath::Abs(costh_HX) < 0.1)", "absCosth_0to0p1"),
   ("(TMath::Abs(costh_HX) > 0.1 && TMath::Abs(costh_HX) < 0.2)", "absCosth_0p1to0p2"),
   ("(TMath::Abs(costh_HX) > 0.2 && TMath::Abs(costh_HX) < 0.3)", "absCosth_0p2to0p3"),
   ("(TMath::Abs(costh_HX) > 0.3 && TMath::Abs(costh_HX) < 0.4)", "absCosth_0p3to0p4"),
   ("(TMath::Abs(costh_HX) > 0.4 && TMath::Abs(costh_HX) < 0.5)", "absCosth_0p4to0p5"),
   ("(TMath::Abs(costh_HX) > 0.5 && TMath::Abs(costh_HX) < 0.6)", "absCosth_0p5to0p6"),
   ("(TMath::Abs(costh_HX) > 0.6 && TMath::Abs(costh_HX) < 0.7)", "absCosth_0p6to0p7"),
   ("(TMath::Abs(costh_HX) > 0.7 && TMath::Abs(costh_HX) < 0.8)", "absCosth_0p7to0p8"),
   ("(TMath::Abs(costh_HX) > 0.8 && TMath::Abs(costh_HX) < 1)", "absCosth_0p8to1")]

/-- The (cut text, name) pairs of `NchCutFits`. -/
def nchSelections : List (String × String) :=
  [("Nch > 2", "Nch_2"), ("Nch > 4", "Nch_4"), ("Nch > 5", "Nch_5"), ("Nch > 6", "Nch_6"),
   ("Nch > 8", "Nch_8"), ("Nch > 10", "Nch_10")]

/-- The (cut text, name) pairs of `NchPtCutsFits`. -/
def nchPtSelections : List (String × String) :=
  [("(Nch > 0 && Nch < 180) && (pT > 15 && pT < 70)", "Nch_0to180_pT_15to70"),
   ("(Nch > 23 && Nch < 180) && (pT > 10 && pT < 70)", "Nch_23to180_pT_10to70"),
   ("(Nch > 20 && Nch < 180) && (pT > 10 && pT < 70)", "Nch_20to180_pT_10to70"),
   ("(Nch > 0 && Nch < 20) && (pT > 10 && pT < 15)", "Nch_0to20_pT_10to15"),
   ("(Nch > 0 && Nch < 20) && (pT > 10 && pT < 12)", "Nch_0to20_pT_10to12"),
   ("(Nch > 0 && Nch < 20) && (pT > 12 && pT < 15)", "Nch_0to20_pT_12to15"),
   ("(Nch > 20 && Nch < 180) && (pT > 15 && pT < 70)", "Nch_20to180_pT_15to70"),
   ("(Nch > 0 && Nch < 20) && (pT > 15 && pT < 70)", "Nch_0to20_pT_15to70"),
   ("(Nch > 0 && Nch < 23) && (pT > 15 && pT < 70)", "Nch_0to23_pT_15to70")]

/-- None of the names that the selections register is taken in the workspace. -/
def Fresh (ws : Workspace R P F) (S : List (String × String)) : Prop :=
  ∀ s ∈ S, hasName ws.data ("data_" ++ s.2) = false ∧
    hasName ws.objects ("fitResults_" ++ s.2) = false ∧
    hasName ws.snapshots ("snap_" ++ s.2) = false

/-- What the fits over the selections leave in turn: for each selection its
name, its subset, the parameter values after its fit and its fit result; each
fit starts from the values that the fit before it left. -/
def fitTrace (ext : Fitter R P F) (full : List R) :
    P → List (String × String) → List (String × List R × P × F)
  | _, [] => []
  | p, s :: rest =>
    let sub := full.filter (ext.select s.1)
    let rlt := ext.fitTo p sub
    (s.2, sub, rlt.1, rlt.2) :: fitTrace ext full rlt.1 rest

/-- The workspace `ws2` is the workspace `ws` with the entries of a trace
registered after those of `ws`, in the order of the trace, and with the
parameter values of the last fit. -/
def Registered (ws ws2 : Workspace R P F) (tr : List (String × List R × P × F)) : Prop :=
  ws2.data = ws.data ++ tr.map (fun e => ("data_" ++ e.1, e.2.1)) ∧
  ws2.objects = ws.objects ++ tr.map (fun e => ("fitResults_" ++ e.1, e.2.2.2)) ∧
  ws2.snapshots = ws.snapshots ++ tr.map (fun e => ("snap_" ++ e.1, e.2.2.1)) ∧
  ws2.params = (tr.getLast?.map (fun e => e.2.2.1)).getD ws.params

/-- Model of `massFits_costh` up to the call of the driver: the tree is imported
as `fullData` and as `fitData`, the model is built with the start values `p0`,
fitted to the whole dataset, the snapshot `snap_fullData` is saved and the fit
result is imported under the name the library gave it. -/
def setupWorkspace (ext : Fitter R P F) (p0 : P) (tree : List R) (rltName : String) :
    Workspace R P F :=
  let ws0 : Workspace R P F := ⟨[], [], [], p0⟩
  let ws1 := ws0.importData "fullData" tree
  let ws2 := ws1.importData "fitData" tree
  let rlt := ext.fitTo ws2.params tree
  let ws3 := { ws2 with params := rlt.1 }
  let ws4 := ws3.saveSnapshot "snap_fullData"
  ws4.importObject rltName rlt.2

/-- Model of `massFits_costh`: the set-up, then `NchPtCutsFits` on `fitData`. -/
def massFits_costh (ext : Fitter R P F) (p0 : P) (tree : List R) (rltName : String) :
    Option (Workspace R P F) :=
  NchPtCutsFits ext (setupWorkspace ext p0 tree rltName) "fitData"

/-- A small instance for the examples: records and parameter values are natural
numbers, a cut keeps the records above 1, and a fit moves the parameter value
up by one plus the size of its dataset and reports the value it started from. -/
def toyFitter : Fitter Nat Nat Nat :=
  ⟨fun _ r => decide (1 < r), fun p d => (p + d.length + 1, p)⟩

/-! ## What a bin selection text denotes -/

/-- The magnitude of a finite double with its sign, as an integer numerator over
`fracDen e`. -/
def signedNum (neg : Bool) (m : Nat) (e : Int) : Int :=
  if neg then - (fracNum m e : Int) else (fracNum m e : Int)

/-- Comparison `x < y` of two doubles: false with a NaN on either side. -/
def Dbl.lt : Dbl → Dbl → Bool
  | .nan _, _ => false
  | _, .nan _ => false
  | .inf true, .inf true => false
  | .inf true, _ => true
  | _, .inf true => false
  | .inf false, _ => false
  | _, .inf false => true
  | .fin n1 m1 e1, .fin n2 m2 e2 =>
    decide (signedNum n1 m1 e1 * (fracDen e2 : Int) < signedNum n2 m2 e2 * (fracDen e1 : Int))

/-- Value of a run of decimal digits. -/
def digitsVal (ds : List Char) : Nat := ds.foldl (fun a c => 10 * a + (c.toNat - 48)) 0

/-- The double nearest to `digits * 10^ex`. -/
def decimal (neg : Bool) (ds : List Char) (ex : Int) : Dbl :=
  if 0 ≤ ex then toDouble neg (digitsVal ds * 10 ^ ex.toNat) 1
  else toDouble neg (digitsVal ds) (10 ^ (-ex).toNat)

/-- Reading of a decimal numeral `[-]digits[.digits][e(+|-)digits]` as the nearest
double; `none` for any other text. -/
def readNum (s : List Char) : Option Dbl :=
  let neg := s.head? == some '-'
  let s1 := if neg then s.drop 1 else s
  let int := s1.takeWhile Char.isDigit
  let s2 := s1.dropWhile Char.isDigit
  if int.isEmpty then none
  else
    let hasPoint := s2.head? == some '.'
    let frac := if hasPoint then (s2.drop 1).takeWhile Char.isDigit else []
    let s3 := if hasPoint then (s2.drop 1).dropWhile Char.isDigit else s2
    if hasPoint && frac.isEmpty then none
    else
      match s3 with
      | [] => some (decimal neg (int ++ frac) (- (frac.length : Int)))
      | 'e' :: sgn :: ds =>
        if (sgn == '-' || sgn == '+') && !ds.isEmpty && ds.all Char.isDigit then
          some (decimal neg (int ++ frac)
            ((if sgn == '-' then - (digitsVal ds : Int) else (digitsVal ds : Int)) -
              (frac.length : Int)))
        else none
      | _ => none

/-- The text after a leading part, `none` when the text does not start with it. -/
def dropLead (lead s : List Char) : Option (List Char) :=
  if lead.isPrefixOf s then some (s.drop lead.length) else none

/-- Model of the formula engine on the one shape that `getBinExpr` writes,
`(var > a && var < b)`: the two numerals are read back from the text and the
value `x` of the variable is compared with them; `none` for a text of another
shape. -/
def evalBinExpr (var text : String) (x : Dbl) : Option Bool := do
  let s1 ← dropLead ('(' :: (var.data ++ [' ', '>', ' '])) text.data
  let lowText := s1.takeWhile (fun c => c != ' ')
  let s2 ← dropLead ([' ', '&', '&', ' '] ++ (var.data ++ [' ', '<', ' ']))
    (s1.dropWhile (fun c => c != ' '))
  let highText := s2.takeWhile (fun c => c != ')')
  if s2.dropWhile (fun c => c != ')') == [')'] then do
    let a ← readNum lowText
    let b ← readNum highText
    pure (a.lt x && x.lt b)
  else none

/-! ## The mixture of `buildModel` -/

/-- Comparison `x ≤ y` of two doubles: false with a NaN on either side. -/
def Dbl.le : Dbl → Dbl → Bool
  | .nan _, _ => false
  | _, .nan _ => false
  | .inf true, _ => true
  | _, .inf true => false
  | _, .inf false => true
  | .inf false, _ => false
  | .fin n1 m1 e1, .fin n2 m2 e2 =>
    decide (signedNum n1 m1 e1 * (fracDen e2 : Int) ≤ signedNum n2 m2 e2 * (fracDen e1 : Int))

/-- Difference `x - y` in double arithmetic: the exact difference rounded to the
nearest double, ties to even; a difference of zero is `+0` but for `-0 - +0`. -/
def Dbl.sub : Dbl → Dbl → Dbl
  | .fin n1 m1 e1, .fin n2 m2 e2 =>
    let num : Int :=
      signedNum n1 m1 e1 * (fracDen e2 : Int) - signedNum n2 m2 e2 * (fracDen e1 : Int)
    if num = 0 then .fin (n1 && !n2 && m1 == 0 && m2 == 0) 0 0
    else toDouble (decide (num < 0)) num.natAbs (fracDen e1 * fracDen e2)
  | .nan n, _ => .nan n
  | _, .nan n => .nan n
  | .inf n1, .inf n2 => if n1 = n2 then .nan true else .inf n1
  | .inf n1, .fin _ _ _ => .inf n1
  | .fin _ _ _, .inf n2 => .inf (!n2)

/-- A parameter declared as `name[init, lo, hi]`. -/
structure Param where
  name : String
  init : Dbl
  lo : Dbl
  hi : Dbl

/-- The declaration `fBkg[0.5,0,1]`. -/
def fBkg : Param := ⟨"fBkg", lit 5 1, lit 0 0, lit 1 0⟩

/-- The declaration `f1S[0.2,0,1]`. -/
def f1S : Param := ⟨"f1S", lit 2 1, lit 0 0, lit 1 0⟩

/-- The declaration `f2S[0.15,0,1]`. -/
def f2S : Param := ⟨"f2S", lit 15 2, lit 0 0, lit 1 0⟩

/-- A value within the declared bounds of a parameter. -/
def Param.holds (p : Param) (x : Dbl) : Prop := p.lo.le x = true ∧ x.le p.hi = true

/-- Model of the fitting library on a sum with one coefficient fewer than
components: the fraction of the last component is one minus the coefficients,
subtracted in turn in double arithmetic. -/
def lastFraction (coefs : List Dbl) : Dbl := coefs.foldl Dbl.sub (lit 1 0)

/-- Fractions of a sum of components with one coefficient fewer than components:
the coefficients, then the implied fraction of the last component. -/
def sumFractions (coefs : List Dbl) : List Dbl := coefs ++ [lastFraction coefs]

/-- Fractions of `SUM:fullModel(fBkg*bkgPoly, f1S*sigCB1S, f2S*sigCB2S, sigCB3S)`. -/
def fullModelFractions (b s1 s2 : Dbl) : List Dbl := sumFractions [b, s1, s2]

/-- A finite double with value between the integers `lo` and `hi`. -/
def Dbl.within (lo hi : Int) : Dbl → Prop
  | .fin neg m e =>
    lo * (fracDen e : Int) ≤ signedNum neg m e ∧ signedNum neg m e ≤ hi * (fracDen e : Int)
  | _ => False

/-! # Lemmas and theorems -/

/-! ## The matcher -/

theorem not_digit_dot : ('.' : Char).isDigit = false := by decide

theorem digit_ne_dot {c : Char} (h : c.isDigit = true) : (c == '.') = false := by
  cases hc : (c == '.') with
  | false => rfl
  | true =>
    have : c = '.' := by simpa using hc
    subst this
    simp [not_digit_dot] at h

theorem groupTwo_length {sep : Sep} {g after g1 g2 : List Char}
    (h : groupTwo sep g after = some (g1, g2)) :
    g1 = g ∧ g2.length + 1 ≤ after.length := by
  unfold groupTwo at h
  cases after with
  | nil => simp at h
  | cons c t =>
    simp only at h
    split at h
    · split at h
      · simp at h
      · simp only [Option.some.injEq, Prod.mk.injEq] at h
        obtain ⟨h1, h2⟩ := h
        refine ⟨h1.symm, ?_⟩
        subst h2
        have := (List.takeWhile_sublist (l := t) Char.isDigit).length_le
        simp only [List.length_cons]
        omega
    · simp at h

theorem matchFrom_length {sep : Sep} : ∀ (s g g1 g2 : List Char),
    matchFrom sep g s = some (g1, g2) → g1.length + g2.length + 1 ≤ g.length + s.length
  | [], g, g1, g2, h => by simp [matchFrom] at h
  | c :: t, g, g1, g2, h => by
    unfold matchFrom at h
    split at h
    · split at h
      · rename_i r hr
        simp only [Option.some.injEq] at h
        subst h
        have := matchFrom_length t (g ++ [c]) g1 g2 hr
        simp only [List.length_append, List.length_cons, List.length_nil] at this ⊢
        omega
      · obtain ⟨h1, h2⟩ := groupTwo_length h
        subst h1
        simp only [List.length_append, List.length_cons, List.length_nil] at h2 ⊢
        omega
    · simp at h

theorem groupTwo_dot_append {c : Char} (hd : c.isDigit = false) (hp : (c == '.') = false)
    (g a b : List Char) : groupTwo .dot g (a ++ c :: b) = groupTwo .dot g a := by
  cases a with
  | nil => simp [groupTwo, Sep.accepts, hp]
  | cons x a =>
    simp only [groupTwo, List.cons_append]
    have : List.takeWhile Char.isDigit (a ++ c :: b) = List.takeWhile Char.isDigit a := by
      induction a with
      | nil => simp [List.takeWhile, hd]
      | cons y a ih => simp only [List.cons_append, List.takeWhile]; split <;> simp [ih]
    rw [this]

theorem matchFrom_dot_append {c : Char} (hd : c.isDigit = false) (hp : (c == '.') = false)
    (b : List Char) : ∀ (a g : List Char),
    matchFrom .dot g (a ++ c :: b) = matchFrom .dot g a
  | [], g => by simp [matchFrom, hd]
  | x :: a, g => by
    simp only [List.cons_append, matchFrom, List.append_eq]
    rw [matchFrom_dot_append hd hp b a (g ++ [x]), groupTwo_dot_append hd hp]

theorem replaceSkip_dot_append {c : Char} (hd : c.isDigit = false) (hp : (c == '.') = false)
    (b : List Char) : ∀ (a : List Char) (k : Nat), k ≤ a.length →
    replaceSkip .dot k (a ++ c :: b) = replaceSkip .dot k a ++ c :: replaceSkip .dot 0 b
  | [], k, hk => by
    have : k = 0 := by simpa using hk
    subst this
    simp [replaceSkip, matchHere, matchFrom, hd]
  | x :: a, k + 1, hk => by
    simp only [List.cons_append, replaceSkip, List.append_eq]
    exact replaceSkip_dot_append hd hp b a k (by simpa using hk)
  | x :: a, 0, _ => by
    simp only [List.cons_append, replaceSkip, matchHere, List.append_eq]
    have hm := matchFrom_dot_append hd hp b (x :: a) []
    simp only [List.cons_append] at hm
    rw [hm]
    cases hr : matchFrom .dot [] (x :: a) with
    | none => simp [replaceSkip_dot_append hd hp b a 0 (Nat.zero_le _)]
    | some r =>
      obtain ⟨g1, g2⟩ := r
      have hl := matchFrom_length _ _ _ _ hr
      simp only [List.length_nil, List.length_cons] at hl
      simp [replaceSkip_dot_append hd hp b a (g1.length + g2.length) (by omega)]


/-! ## Shape of a rendered double -/

theorem digitChar_isDigit {k : Nat} (h : k < 10) : (Nat.digitChar k).isDigit = true := by
  interval_cases k <;> decide

theorem lastDigits_digits : ∀ (k r : Nat), ∀ c ∈ lastDigits k r, c.isDigit = true
  | 0, _, c, h => by simp [lastDigits] at h
  | k + 1, r, c, h => by
    simp only [lastDigits, List.mem_append, List.mem_singleton] at h
    rcases h with h | h
    · exact lastDigits_digits k _ c h
    · subst h
      exact digitChar_isDigit (Nat.mod_lt _ (by decide))

theorem lastDigits_length : ∀ (k r : Nat), (lastDigits k r).length = k
  | 0, _ => rfl
  | k + 1, r => by simp [lastDigits, lastDigits_length k]

theorem toDigitsCore_digits : ∀ (fuel n : Nat) (acc : List Char),
    (∀ c ∈ acc, c.isDigit = true) → ∀ c ∈ Nat.toDigitsCore 10 fuel n acc, c.isDigit = true
  | 0, _, acc, hacc => by simpa [Nat.toDigitsCore] using hacc
  | fuel + 1, n, acc, hacc => by
    have hd : (Nat.digitChar (n % 10)).isDigit = true :=
      digitChar_isDigit (Nat.mod_lt _ (by decide))
    have hacc2 : ∀ c ∈ Nat.digitChar (n % 10) :: acc, c.isDigit = true := by
      intro c hc
      rcases List.mem_cons.1 hc with h | h
      · subst h; exact hd
      · exact hacc c h
    simp only [Nat.toDigitsCore]
    split
    · exact hacc2
    · exact toDigitsCore_digits fuel _ _ hacc2

theorem toDigits_digits (n : Nat) : ∀ c ∈ Nat.toDigits 10 n, c.isDigit = true :=
  toDigitsCore_digits _ _ [] (by simp)

theorem stripZeros_subset {ds : List Char} {c : Char} (h : c ∈ stripZeros ds) : c ∈ ds := by
  unfold stripZeros at h
  have h1 : c ∈ ds.reverse.dropWhile (fun c => c == '0') := List.mem_reverse.1 h
  exact List.mem_reverse.1 ((List.dropWhile_sublist _).subset h1)

theorem expDigits_digits (k : Nat) : ∀ c ∈ expDigits k, c.isDigit = true := by
  intro c hc
  unfold expDigits at hc
  split at hc
  · rename_i hk
    simp only [List.mem_cons, List.mem_singleton, List.not_mem_nil, or_false] at hc
    rcases hc with h | h
    · subst h; decide
    · subst h; exact digitChar_isDigit hk
  · exact toDigits_digits k c hc

theorem genParts_wf (neg : Bool) (n d : Nat) : (genParts neg n d).WF := by
  unfold genParts
  split
  · exact ⟨by simp, by simp, by simp, by simp⟩
  · simp only
    have hlen := lastDigits_length 6 (sigDigits n d).1
    have hdig := lastDigits_digits 6 (sigDigits n d).1
    split
    · refine ⟨?_, ?_, ?_, ?_⟩
      · intro h
        have := congrArg List.length h
        simp [List.length_take, hlen] at this
      · intro c hc
        exact hdig c (List.mem_of_mem_take hc)
      · intro c hc
        exact hdig c (List.mem_of_mem_drop (stripZeros_subset hc))
      · intro eneg ds h c hc
        simp only [Option.some.injEq, Prod.mk.injEq] at h
        obtain ⟨_, h2⟩ := h
        subst h2
        exact expDigits_digits _ c hc
    · split
      · refine ⟨?_, ?_, ?_, by simp⟩
        · intro h
          have := congrArg List.length h
          simp [List.length_take, hlen] at this
        · intro c hc
          exact hdig c (List.mem_of_mem_take hc)
        · intro c hc
          exact hdig c (List.mem_of_mem_drop (stripZeros_subset hc))
      · refine ⟨by simp, by simp, ?_, by simp⟩
        intro c hc
        have := stripZeros_subset hc
        rcases List.mem_append.1 this with h | h
        · have := (List.mem_replicate.1 h).2
          subst this; decide
        · exact hdig c h

/-! ## The substitution on a rendered double -/

theorem matchFrom_dot_none : ∀ (s g : List Char), (∀ c ∈ s, (c == '.') = false) →
    matchFrom .dot g s = none
  | [], _, _ => rfl
  | c :: t, g, h => by
    have ht : ∀ c ∈ t, (c == '.') = false := fun x hx => h x (List.mem_cons_of_mem _ hx)
    simp only [matchFrom]
    split
    · rw [matchFrom_dot_none t _ ht]
      cases t with
      | nil => rfl
      | cons y t => simp [groupTwo, Sep.accepts, h y (by simp)]
    · rfl

theorem replaceSkip_dot_id : ∀ (s : List Char), (∀ c ∈ s, (c == '.') = false) →
    replaceSkip .dot 0 s = s
  | [], _ => rfl
  | c :: t, h => by
    simp only [replaceSkip, matchHere]
    rw [matchFrom_dot_none _ _ h]
    simp only
    rw [replaceSkip_dot_id t (fun x hx => h x (List.mem_cons_of_mem _ hx))]

theorem replaceSkip_drop (sep : Sep) : ∀ (k : Nat) (s : List Char),
    replaceSkip sep k s = replaceSkip sep 0 (s.drop k)
  | 0, _ => rfl
  | k + 1, [] => by simp [replaceSkip]
  | k + 1, _ :: t => by simp [replaceSkip, replaceSkip_drop sep k t]

theorem takeWhile_digits_append {fs rest : List Char} (hfs : ∀ c ∈ fs, c.isDigit = true)
    (hrest : startsWithDigit rest = false) :
    (fs ++ rest).takeWhile Char.isDigit = fs := by
  induction fs with
  | nil =>
    cases rest with
    | nil => rfl
    | cons y r =>
      simp only [startsWithDigit] at hrest
      simp [List.takeWhile, hrest]
  | cons x fs ih =>
    simp only [List.cons_append, List.takeWhile, hfs x (by simp), List.append_eq]
    rw [ih (fun c hc => hfs c (List.mem_cons_of_mem _ hc))]

theorem matchFrom_dot_some {fs rest : List Char} (hfs : ∀ c ∈ fs, c.isDigit = true)
    (hne : fs ≠ []) (hrest : startsWithDigit rest = false) :
    ∀ (ds g : List Char), (∀ c ∈ ds, c.isDigit = true) → ds ≠ [] →
    matchFrom .dot g (ds ++ '.' :: (fs ++ rest)) = some (g ++ ds, fs)
  | [], _, _, h => absurd rfl h
  | [x], g, hds, _ => by
    have hx : x.isDigit = true := hds x (by simp)
    simp only [List.cons_append, List.nil_append, matchFrom, hx, if_true, not_digit_dot,
      List.append_eq]
    simp only [Bool.false_eq_true, if_false, groupTwo, Sep.accepts, beq_self_eq_true, if_true]
    rw [takeWhile_digits_append hfs hrest]
    cases fs with
    | nil => exact absurd rfl hne
    | cons y fs => simp
  | x :: y :: ds, g, hds, _ => by
    have hx : x.isDigit = true := hds x (by simp)
    have ih := matchFrom_dot_some hfs hne hrest (y :: ds) (g ++ [x])
      (fun c hc => hds c (List.mem_cons_of_mem _ hc)) (by simp)
    rw [List.cons_append, matchFrom]
    simp only [hx, if_true]
    rw [ih]
    simp

theorem replaceSkip_dot_match {ds fs rest : List Char} (hds : ∀ c ∈ ds, c.isDigit = true)
    (hdne : ds ≠ []) (hfs : ∀ c ∈ fs, c.isDigit = true) (hfne : fs ≠ [])
    (hrest : startsWithDigit rest = false) :
    replaceSkip .dot 0 (ds ++ '.' :: (fs ++ rest)) =
      ds ++ 'p' :: (fs ++ replaceSkip .dot 0 rest) := by
  have hm := matchFrom_dot_some hfs hfne hrest ds [] hds hdne
  cases ds with
  | nil => exact absurd rfl hdne
  | cons x ds =>
    rw [List.cons_append] at hm ⊢
    rw [replaceSkip, matchHere, hm]
    simp only [List.nil_append]
    rw [replaceSkip_drop]
    have : List.drop ((x :: ds).length + fs.length) (ds ++ '.' :: (fs ++ rest)) = rest := by
      have h1 : (x :: ds).length + fs.length = (ds ++ '.' :: fs).length := by
        simp only [List.length_cons, List.length_append]; omega
      rw [h1, show ds ++ '.' :: (fs ++ rest) = (ds ++ '.' :: fs) ++ rest by simp]
      exact List.drop_left _ _
    rw [this]
    simp

theorem replaceSkip_dot_cons {c : Char} (hd : c.isDigit = false) (t : List Char) :
    replaceSkip .dot 0 (c :: t) = c :: replaceSkip .dot 0 t := by
  simp [replaceSkip, matchHere, matchFrom, hd]

theorem expText_noDot {ex : Option (Bool × List Char)}
    (h : ∀ eneg ds, ex = some (eneg, ds) → ∀ c ∈ ds, c.isDigit = true) :
    ∀ c ∈ expText ex, (c == '.') = false := by
  intro c hc
  cases ex with
  | none => simp [expText] at hc
  | some r =>
    obtain ⟨eneg, ds⟩ := r
    simp only [expText, List.mem_cons] at hc
    rcases hc with h1 | h1 | h1
    · subst h1; decide
    · subst h1; cases eneg <;> decide
    · exact digit_ne_dot (h eneg ds rfl c h1)

theorem expText_start (ex : Option (Bool × List Char)) : startsWithDigit (expText ex) = false := by
  cases ex with
  | none => rfl
  | some r => obtain ⟨eneg, ds⟩ := r; simp only [expText, startsWithDigit]; decide

theorem replace_textWith {p : NumParts} (h : p.WF) :
    replaceSkip .dot 0 (p.textWith '.') = p.textWith 'p' := by
  have hbody : replaceSkip .dot 0
      (p.int ++ ((if p.frac.isEmpty then [] else '.' :: p.frac) ++ expText p.exp)) =
      p.int ++ ((if p.frac.isEmpty then [] else 'p' :: p.frac) ++ expText p.exp) := by
    cases hf : p.frac with
    | nil =>
      simp only [List.isEmpty_nil, if_true, List.nil_append]
      apply replaceSkip_dot_id
      intro c hc
      rcases List.mem_append.1 hc with h1 | h1
      · exact digit_ne_dot (h.int_digits c h1)
      · exact expText_noDot h.exp_digits c h1
    | cons y fs =>
      simp only [List.isEmpty_cons, Bool.false_eq_true, if_false, List.cons_append]
      have hfd : ∀ c ∈ y :: fs, c.isDigit = true := hf ▸ h.frac_digits
      have := replaceSkip_dot_match h.int_digits h.int_ne hfd (by simp) (expText_start p.exp)
      rw [List.cons_append] at this
      rw [this, replaceSkip_dot_id _ (expText_noDot h.exp_digits)]
      simp
  unfold NumParts.textWith
  cases p.neg with
  | false => simpa [signText] using hbody
  | true =>
    simp only [signText, if_true, List.cons_append, List.nil_append]
    rw [replaceSkip_dot_cons (by decide), hbody]

theorem replace_render (x : Dbl) : replaceSkip .dot 0 x.render = x.renderP := by
  cases x with
  | fin neg m e => exact replace_textWith (genParts_wf _ _ _)
  | inf neg => cases neg <;> decide
  | nan neg => cases neg <;> decide

/-! ## The specification's substitution on a rendered double -/

theorem pointsToP_id : ∀ (s : List Char) (prev : Bool), (∀ c ∈ s, (c == '.') = false) →
    pointsToP prev s = s
  | [], _, _ => rfl
  | c :: t, prev, h => by
    simp only [pointsToP, h c (by simp), Bool.false_and, Bool.false_eq_true, if_false]
    rw [pointsToP_id t _ (fun x hx => h x (List.mem_cons_of_mem _ hx))]

theorem pointsToP_digits : ∀ (ds : List Char) (prev : Bool) (rest : List Char),
    (∀ c ∈ ds, c.isDigit = true) → ds ≠ [] →
    pointsToP prev (ds ++ rest) = ds ++ pointsToP true rest
  | [], _, _, _, h => absurd rfl h
  | [x], prev, rest, hds, _ => by
    have hx : x.isDigit = true := hds x (by simp)
    simp [pointsToP, digit_ne_dot hx, hx]
  | x :: y :: ds, prev, rest, hds, _ => by
    have hx : x.isDigit = true := hds x (by simp)
    have ih := pointsToP_digits (y :: ds) true rest
      (fun c hc => hds c (List.mem_cons_of_mem _ hc)) (by simp)
    rw [List.cons_append, pointsToP, hx, ih]
    simp [digit_ne_dot hx]

theorem startsWithDigit_append {fs : List Char} (hfs : ∀ c ∈ fs, c.isDigit = true)
    (hne : fs ≠ []) (rest : List Char) : startsWithDigit (fs ++ rest) = true := by
  cases fs with
  | nil => exact absurd rfl hne
  | cons y fs => exact hfs y (by simp)

theorem subst_textWith {p : NumParts} (h : p.WF) :
    substSpec (p.textWith '.') = p.textWith 'p' := by
  have hbody : pointsToP false
      (p.int ++ ((if p.frac.isEmpty then [] else '.' :: p.frac) ++ expText p.exp)) =
      p.int ++ ((if p.frac.isEmpty then [] else 'p' :: p.frac) ++ expText p.exp) := by
    rw [pointsToP_digits _ _ _ h.int_digits h.int_ne]
    cases hf : p.frac with
    | nil =>
      simp only [List.isEmpty_nil, if_true, List.nil_append]
      rw [pointsToP_id _ _ (expText_noDot h.exp_digits)]
    | cons y fs =>
      have hfd : ∀ c ∈ y :: fs, c.isDigit = true := hf ▸ h.frac_digits
      simp only [List.isEmpty_cons, Bool.false_eq_true, if_false, List.cons_append]
      rw [pointsToP]
      have hs : startsWithDigit (y :: (fs ++ expText p.exp)) = true := hfd y (by simp)
      simp only [beq_self_eq_true, Bool.true_and, hs, if_true, not_digit_dot]
      have hno : ∀ c ∈ y :: (fs ++ expText p.exp), (c == '.') = false := by
        intro c hc
        rcases List.mem_cons.1 hc with h1 | h1
        · subst h1; exact digit_ne_dot (hfd c (by simp))
        · rcases List.mem_append.1 h1 with h2 | h2
          · exact digit_ne_dot (hfd c (List.mem_cons_of_mem _ h2))
          · exact expText_noDot h.exp_digits c h2
      rw [pointsToP_id _ _ hno]
  unfold substSpec NumParts.textWith
  cases p.neg with
  | false => simpa [signText] using hbody
  | true =>
    simp only [signText, if_true, List.cons_append, List.nil_append]
    rw [pointsToP]
    simp only [show ('-' == '.') = false by decide, Bool.false_and, Bool.false_eq_true,
      if_false, show ('-' : Char).isDigit = false by decide]
    rw [hbody]

theorem subst_render (x : Dbl) : substSpec x.render = x.renderP := by
  cases x with
  | fin neg m e => exact subst_textWith (genParts_wf _ _ _)
  | inf neg => cases neg <;> decide
  | nan neg => cases neg <;> decide

theorem map_dotToP_id : ∀ (s : List Char), (∀ c ∈ s, (c == '.') = false) → s.map dotToP = s
  | [], _ => rfl
  | c :: t, h => by
    simp only [List.map, dotToP, h c (by simp), Bool.false_eq_true, if_false]
    rw [map_dotToP_id t (fun x hx => h x (List.mem_cons_of_mem _ hx))]

theorem map_textWith {p : NumParts} (h : p.WF) :
    (p.textWith '.').map dotToP = p.textWith 'p' := by
  have hint : p.int.map dotToP = p.int :=
    map_dotToP_id _ (fun c hc => digit_ne_dot (h.int_digits c hc))
  have hfrac : p.frac.map dotToP = p.frac :=
    map_dotToP_id _ (fun c hc => digit_ne_dot (h.frac_digits c hc))
  have hexp : (expText p.exp).map dotToP = expText p.exp :=
    map_dotToP_id _ (expText_noDot h.exp_digits)
  have hsign : (signText p.neg).map dotToP = signText p.neg := by
    cases p.neg <;> decide
  unfold NumParts.textWith
  simp only [List.map_append, hint, hexp, hsign]
  cases hf : p.frac with
  | nil => simp
  | cons y fs =>
    rw [hf] at hfrac
    simp only [List.isEmpty_cons, Bool.false_eq_true, if_false]
    rw [List.map_cons, hfrac]
    rfl

theorem map_render (x : Dbl) : x.render.map dotToP = x.renderP := by
  cases x with
  | fin neg m e => exact map_textWith (genParts_wf _ _ _)
  | inf neg => cases neg <;> decide
  | nan neg => cases neg <;> decide

/-! ## Characters of a rendered double -/

theorem digit_numChar {c : Char} (h : c.isDigit = true) : numChar c = true := by
  simp [numChar, h]

theorem textWith_numChar {p : NumParts} (h : p.WF) : ∀ c ∈ p.textWith '.', numChar c = true := by
  intro c hc
  unfold NumParts.textWith at hc
  rcases List.mem_append.1 hc with h1 | h1
  · cases hn : p.neg with
    | false => simp [signText, hn] at h1
    | true =>
      simp only [signText, hn, if_true, List.mem_singleton] at h1
      subst h1; decide
  rcases List.mem_append.1 h1 with h2 | h2
  · exact digit_numChar (h.int_digits c h2)
  rcases List.mem_append.1 h2 with h3 | h3
  · split at h3
    · simp at h3
    · rcases List.mem_cons.1 h3 with h4 | h4
      · subst h4; decide
      · exact digit_numChar (h.frac_digits c h4)
  · cases hex : p.exp with
    | none => simp [hex, expText] at h3
    | some r =>
      obtain ⟨eneg, ds⟩ := r
      simp only [hex, expText, List.mem_cons] at h3
      rcases h3 with h4 | h4 | h4
      · subst h4; decide
      · subst h4; cases eneg <;> decide
      · exact digit_numChar (h.exp_digits eneg ds hex c h4)

theorem render_numChar (x : Dbl) : ∀ c ∈ x.render, numChar c = true := by
  cases x with
  | fin neg m e => exact textWith_numChar (genParts_wf _ _ _)
  | inf neg => cases neg <;> decide
  | nan neg => cases neg <;> decide

theorem renderP_noDot (x : Dbl) : ∀ c ∈ x.renderP, (c == '.') = false := by
  intro c hc
  rw [← map_render] at hc
  obtain ⟨a, _, rfl⟩ := List.mem_map.1 hc
  unfold dotToP
  split
  · decide
  · rename_i h; simpa using h


/-! ## The names -/

theorem prevIndex_eq {i : Nat} (h1 : 1 ≤ i) (h64 : i < 2 ^ 64) : prevIndex i = i - 1 := by
  unfold prevIndex
  norm_num at h64 ⊢
  omega

theorem replace_binText (v L H : List Char) :
    replaceSkip .dot 0 (v ++ '_' :: (L ++ 't' :: 'o' :: H)) =
      replaceSkip .dot 0 v ++ '_' :: (replaceSkip .dot 0 L ++ 't' :: 'o' :: replaceSkip .dot 0 H) := by
  rw [replaceSkip_dot_append (by decide) (by decide) _ v 0 (Nat.zero_le _),
    replaceSkip_dot_append (by decide) (by decide) _ L 0 (Nat.zero_le _),
    replaceSkip_dot_cons (by decide)]

theorem binName_text (v : String) (lo hi : Dbl) :
    regexReplace .dot (v ++ "_" ++ lo.str ++ "to" ++ hi.str) =
      regexReplace .dot v ++ "_" ++ String.mk lo.renderP ++ "to" ++ String.mk hi.renderP := by
  apply String.ext
  have := replace_binText v.data lo.render hi.render
  simp only [regexReplace, String.data_append, Dbl.str, List.append_assoc] at this ⊢
  rw [replace_render, replace_render] at this
  simpa using this

theorem getBinName_some (E : List Dbl) (i : Nat) (v : String) (lo hi : Dbl)
    (h1 : 1 ≤ i) (h64 : i < 2 ^ 64) (hlo : E[i - 1]? = some lo) (hhi : E[i]? = some hi) :
    getBinName E i v =
      some (regexReplace .dot v ++ "_" ++ String.mk lo.renderP ++ "to" ++ String.mk hi.renderP) := by
  unfold getBinName
  rw [prevIndex_eq h1 h64, hlo, hhi]
  simp only [Option.bind_eq_bind, Option.some_bind, Option.pure_def]
  rw [binName_text]

theorem edges_some (E : List Dbl) (i : Nat) (h1 : 1 ≤ i) (h2 : i ≤ E.length - 1) :
    ∃ lo hi, E[i - 1]? = some lo ∧ E[i]? = some hi := by
  have hi : i < E.length := by omega
  have hl : i - 1 < E.length := by omega
  exact ⟨E[i - 1], E[i], List.getElem?_eq_getElem hl, List.getElem?_eq_getElem hi⟩

theorem regexReplace_dot_id (v : String) (h : ∀ c ∈ v.data, c ≠ '.') :
    regexReplace .dot v = v := by
  apply String.ext
  simp only [regexReplace]
  exact replaceSkip_dot_id _ (fun c hc => by simpa using h c hc)

/-- C1, amended: for a valid bin index the name is the variable name after the
substitution (the variable name itself when it holds no decimal point), then
`_`, the rendering of the lower edge, `to`, the rendering of the upper edge,
each rendering with every decimal point between two digits written as `p` and
nothing else changed. -/
theorem getBinName_format (E : List Dbl) (i : Nat) (v : String)
    (h1 : 1 ≤ i) (h2 : i ≤ E.length - 1) (h64 : i < 2 ^ 64) :
    ∃ lo hi, E[i - 1]? = some lo ∧ E[i]? = some hi ∧
      getBinName E i v = some (regexReplace .dot v ++ "_" ++ String.mk (substSpec lo.render)
        ++ "to" ++ String.mk (substSpec hi.render)) ∧
      ((∀ c ∈ v.data, c ≠ '.') → regexReplace .dot v = v) ∧
      String.mk (substSpec (lit 5 1).render) = "0p5" ∧
      getBinName absCosThEdges 1 "absCosth" = some "absCosth_0to0p1" := by
  obtain ⟨lo, hi, hlo, hhi⟩ := edges_some E i h1 h2
  refine ⟨lo, hi, hlo, hhi, ?_, regexReplace_dot_id v, by decide, by decide⟩
  rw [subst_render, subst_render]
  exact getBinName_some E i v lo hi h1 h64 hlo hhi

/-- The format at the bin `0.4 .. 0.5` of `absCosThEdges`. -/
theorem getBinName_format_witness :
    1 ≤ 5 ∧ 5 ≤ absCosThEdges.length - 1 ∧ 5 < 2 ^ 64 ∧
    getBinName absCosThEdges 5 "absCosth" = some "absCosth_0p4to0p5" ∧
    ∃ lo hi, absCosThEdges[5 - 1]? = some lo ∧ absCosThEdges[5]? = some hi ∧
      getBinName absCosThEdges 5 "absCosth" = some (regexReplace .dot "absCosth" ++ "_" ++
        String.mk (substSpec lo.render) ++ "to" ++ String.mk (substSpec hi.render)) ∧
      ((∀ c ∈ "absCosth".data, c ≠ '.') → regexReplace .dot "absCosth" = "absCosth") ∧
      String.mk (substSpec (lit 5 1).render) = "0p5" ∧
      getBinName absCosThEdges 1 "absCosth" = some "absCosth_0to0p1" :=
  ⟨by decide, by decide, by decide, by decide,
    getBinName_format absCosThEdges 5 "absCosth" (by decide) (by decide) (by decide)⟩

/-- A variable name with a decimal point between digits is changed as well. -/
theorem binName_variable_changed :
    getBinName [lit 0 1, lit 1 1] 1 "x1.5" = some "x1p5_0to0p1" ∧
    getBinName [lit 0 1, lit 1 1] 1 "x1.5" ≠
      some ("x1.5" ++ "_" ++ String.mk (substSpec (lit 0 1).render) ++ "to" ++
        String.mk (substSpec (lit 1 1).render)) := by
  decide

theorem split_unique {c : Char} : ∀ (a b x y : List Char), c ∉ a → c ∉ b →
    a ++ c :: x = b ++ c :: y → a = b ∧ x = y
  | [], [], x, y, _, _, h => by simpa using h
  | [], d :: b, x, y, _, hb, h => by
    simp only [List.nil_append, List.cons_append, List.cons.injEq] at h
    exact absurd (h.1 ▸ List.mem_cons_self _ _) hb
  | d :: a, [], x, y, ha, _, h => by
    simp only [List.nil_append, List.cons_append, List.cons.injEq] at h
    exact absurd (h.1 ▸ List.mem_cons_self _ _) ha
  | d :: a, e :: b, x, y, ha, hb, h => by
    simp only [List.cons_append, List.cons.injEq] at h
    obtain ⟨h1, h2⟩ := split_unique a b x y
      (fun hm => ha (List.mem_cons_of_mem _ hm)) (fun hm => hb (List.mem_cons_of_mem _ hm)) h.2
    exact ⟨by rw [h.1, h1], h2⟩

theorem dotToP_inj {x y : Char} (hx : x ≠ 'p') (hy : y ≠ 'p') (h : dotToP x = dotToP y) :
    x = y := by
  unfold dotToP at h
  split at h <;> split at h
  · rename_i h1 h2
    rw [eq_of_beq h1, eq_of_beq h2]
  · exact absurd h.symm hy
  · exact absurd h hx
  · exact h

theorem map_dotToP_inj : ∀ (a b : List Char), (∀ c ∈ a, c ≠ 'p') → (∀ c ∈ b, c ≠ 'p') →
    a.map dotToP = b.map dotToP → a = b
  | [], [], _, _, _ => rfl
  | [], _ :: _, _, _, h => by simp at h
  | _ :: _, [], _, _, h => by simp at h
  | x :: a, y :: b, ha, hb, h => by
    simp only [List.map_cons, List.cons.injEq] at h
    rw [dotToP_inj (ha x (by simp)) (hb y (by simp)) h.1,
      map_dotToP_inj a b (fun c hc => ha c (List.mem_cons_of_mem _ hc))
        (fun c hc => hb c (List.mem_cons_of_mem _ hc)) h.2]

theorem render_ne_p (x : Dbl) : ∀ c ∈ x.render, c ≠ 'p' := by
  intro c hc h
  have := render_numChar x c hc
  rw [h] at this
  exact absurd this (by decide)

theorem renderP_ne_t (x : Dbl) : 't' ∉ x.renderP := by
  intro hc
  rw [← map_render] at hc
  obtain ⟨a, ha, h⟩ := List.mem_map.1 hc
  have hn := render_numChar x a ha
  unfold dotToP at h
  split at h
  · exact absurd h (by decide)
  · rw [h] at hn
    exact absurd hn (by decide)

theorem renderP_inj {x y : Dbl} (h : x.renderP = y.renderP) : x.render = y.render := by
  rw [← map_render, ← map_render] at h
  exact map_dotToP_inj _ _ (render_ne_p x) (render_ne_p y) h

/-- C2, amended: for a variable name without a decimal point, the name that
`getBinName` returns holds no decimal point, it is the text
`v_<low>to<high>` with every decimal point of the two rendered numbers turned
into one `p`, and two pairs of edges whose renderings differ get two different
names. -/
theorem getBinName_safe (E E2 : List Dbl) (i : Nat) (v : String) (lo hi lo2 hi2 : Dbl)
    (hv : ∀ c ∈ v.data, c ≠ '.') (h1 : 1 ≤ i) (h64 : i < 2 ^ 64)
    (hlo : E[i - 1]? = some lo) (hhi : E[i]? = some hi)
    (hlo2 : E2[i - 1]? = some lo2) (hhi2 : E2[i]? = some hi2) :
    ∃ name name2, getBinName E i v = some name ∧ getBinName E2 i v = some name2 ∧
      (∀ c ∈ name.data, c ≠ '.') ∧
      name = v ++ "_" ++ String.mk (lo.render.map dotToP) ++ "to" ++
        String.mk (hi.render.map dotToP) ∧
      ((lo.str ≠ lo2.str ∨ hi.str ≠ hi2.str) → name ≠ name2) ∧
      String.mk ((lit 1 1).render.map dotToP) = "0p1" ∧
      String.mk ((lit 15 2).render.map dotToP) = "0p15" := by
  refine ⟨_, _, getBinName_some E i v lo hi h1 h64 hlo hhi,
    getBinName_some E2 i v lo2 hi2 h1 h64 hlo2 hhi2, ?_, ?_, ?_, by decide, by decide⟩
  · rw [regexReplace_dot_id v hv]
    intro c hc
    simp only [String.data_append, List.mem_append] at hc
    rcases hc with (((h | h) | h) | h) | h
    · exact hv c h
    · have : c = '_' := by simpa using h
      subst this; decide
    · simpa using renderP_noDot lo c h
    · have : c = 't' ∨ c = 'o' := by simpa using h
      rcases this with h | h <;> subst h <;> decide
    · simpa using renderP_noDot hi c h
  · rw [regexReplace_dot_id v hv, map_render, map_render]
  · intro hne heq
    have hd := congrArg String.data heq
    simp only [String.data_append, List.append_assoc] at hd
    have hd2 := List.append_cancel_left hd
    have hd3 : lo.renderP ++ 't' :: ('o' :: hi.renderP) =
        lo2.renderP ++ 't' :: ('o' :: hi2.renderP) := by
      simpa using hd2
    obtain ⟨ha, hb⟩ := split_unique _ _ _ _ (renderP_ne_t lo) (renderP_ne_t lo2) hd3
    have hb2 : hi.renderP = hi2.renderP := by simpa using hb
    rcases hne with h | h
    · exact h (congrArg String.mk (renderP_inj ha))
    · exact h (congrArg String.mk (renderP_inj hb2))

/-- The edges `0.1` and `0.15` after the edge `0`. -/
theorem getBinName_safe_witness :
    getBinName [lit 0 1, lit 1 1] 1 "absCosth" = some "absCosth_0to0p1" ∧
    getBinName [lit 0 1, lit 15 2] 1 "absCosth" = some "absCosth_0to0p15" ∧
    ∃ name name2, getBinName [lit 0 1, lit 1 1] 1 "absCosth" = some name ∧
      getBinName [lit 0 1, lit 15 2] 1 "absCosth" = some name2 ∧
      (∀ c ∈ name.data, c ≠ '.') ∧
      name = "absCosth" ++ "_" ++ String.mk ((lit 0 1).render.map dotToP) ++ "to" ++
        String.mk ((lit 1 1).render.map dotToP) ∧
      (((lit 0 1).str ≠ (lit 0 1).str ∨ (lit 1 1).str ≠ (lit 15 2).str) → name ≠ name2) ∧
      String.mk ((lit 1 1).render.map dotToP) = "0p1" ∧
      String.mk ((lit 15 2).render.map dotToP) = "0p15" :=
  ⟨by decide, by decide,
    getBinName_safe [lit 0 1, lit 1 1] [lit 0 1, lit 15 2] 1 "absCosth"
      (lit 0 1) (lit 1 1) (lit 0 1) (lit 15 2) (by decide) (by decide) (by decide)
      (by decide) (by decide) (by decide) (by decide)⟩

/-- A name of `getCutName` with a decimal point left in it, and two distinct
numbers, equal up to the decimal point, with one name. -/
theorem names_collide_or_keep_point :
    (∀ c ∈ "x1".data, c ≠ '.') ∧ getCutName "x1" (lit 35 1) = "x1p3.5" ∧
    '.' ∈ "x1p3.5".data ∧
    lit 1 1 ≠ lit 10000001 8 ∧
    getBinName [lit 0 1, lit 1 1] 1 "x" = some "x_0to0p1" ∧
    getBinName [lit 0 1, lit 10000001 8] 1 "x" = some "x_0to0p1" := by
  refine ⟨by decide, by decide, by decide, by decide, by decide, by decide⟩

/-! ## The selections of the three drivers -/

theorem costh_pairs :
    (List.range' 1 (absCosThEdges.length - 1)).map (fun i =>
      (getBinExpr absCosThEdges i "TMath::Abs(costh_HX)").bind (fun c =>
        (getBinName absCosThEdges i "absCosth").bind (fun n => some (c, n)))) =
      costhSelections.map some := by
  decide

theorem nch_pairs :
    nchCuts.map (fun cut => (getCutString "Nch" cut, getCutName "Nch" cut)) = nchSelections := by
  decide

theorem nchPt_pairs :
    cutsList.map (fun c => c.getCutString.bind (fun s => c.getCutName.bind (fun n => some (s, n))))
      = nchPtSelections.map some := by
  decide

theorem foldlM_fitAll {α : Type} (ext : Fitter R P F) (fd : String)
    (sel : α → Option (String × String)) : ∀ (l : List α) (S : List (String × String)),
    l.map sel = S.map some → ∀ ws : Workspace R P F,
    l.foldlM (fun ws x => (sel x).bind (fun p => doFit ext ws p.1 p.2 fd)) ws =
      fitAll ext fd ws S
  | [], [], _, ws => rfl
  | [], _ :: _, h, _ => by simp at h
  | _ :: _, [], h, _ => by simp at h
  | x :: l, s :: S, h, ws => by
    simp only [List.map_cons, List.cons.injEq] at h
    rw [List.foldlM_cons, h.1, fitAll]
    simp only [Option.some_bind, Option.bind_eq_bind]
    cases hd : doFit ext ws s.1 s.2 fd with
    | none => rfl
    | some ws1 => exact foldlM_fitAll ext fd sel l S h.2 ws1

theorem costhBinFits_eq (ext : Fitter R P F) (ws : Workspace R P F) (fd : String) :
    costhBinFits ext ws fd = fitAll ext fd ws costhSelections := by
  have hbody : (fun (ws : Workspace R P F) (i : Nat) => do
      let cutString ← getBinExpr absCosThEdges i "TMath::Abs(costh_HX)"
      let binName ← getBinName absCosThEdges i "absCosth"
      doFit ext ws cutString binName fd) =
      (fun ws i => ((getBinExpr absCosThEdges i "TMath::Abs(costh_HX)").bind (fun c =>
        (getBinName absCosThEdges i "absCosth").bind (fun n => some (c, n)))).bind
          (fun p => doFit ext ws p.1 p.2 fd)) := by
    funext ws i
    cases getBinExpr absCosThEdges i "TMath::Abs(costh_HX)" <;>
      cases getBinName absCosThEdges i "absCosth" <;> rfl
  unfold costhBinFits
  rw [hbody]
  exact foldlM_fitAll ext fd (fun i =>
      (getBinExpr absCosThEdges i "TMath::Abs(costh_HX)").bind (fun c =>
        (getBinName absCosThEdges i "absCosth").bind (fun n => some (c, n))))
    _ _ costh_pairs ws

theorem NchCutFits_eq (ext : Fitter R P F) (ws : Workspace R P F) (fd : String) :
    NchCutFits ext ws fd = fitAll ext fd ws nchSelections := by
  have h : nchCuts.map (fun cut => some (getCutString "Nch" cut, getCutName "Nch" cut)) =
      nchSelections.map some := by
    rw [← nch_pairs, List.map_map]; rfl
  exact foldlM_fitAll ext fd (fun cut => some (getCutString "Nch" cut, getCutName "Nch" cut))
    _ _ h ws

theorem NchPtCutsFits_eq (ext : Fitter R P F) (ws : Workspace R P F) (fd : String) :
    NchPtCutsFits ext ws fd = fitAll ext fd ws nchPtSelections := by
  have hbody : (fun (ws : Workspace R P F) (c : Cuts) => do
      let cutStr ← c.getCutString
      let cutName ← c.getCutName
      doFit ext ws cutStr cutName fd) =
      (fun (ws : Workspace R P F) (c : Cuts) =>
        (c.getCutString.bind (fun s => c.getCutName.bind (fun n => some (s, n)))).bind
          (fun p => doFit ext ws p.1 p.2 fd)) := by
    funext ws c
    cases c.getCutString <;> cases c.getCutName <;> rfl
  unfold NchPtCutsFits
  rw [hbody]
  exact foldlM_fitAll ext fd
    (fun (c : Cuts) => c.getCutString.bind (fun s => c.getCutName.bind (fun n => some (s, n))))
    _ _ nchPt_pairs ws

/-! ## One fit and a sequence of fits -/

theorem hasName_append {α : Type} (l : List (String × α)) (e : String × α) (name : String) :
    hasName (l ++ [e]) name = (hasName l name || e.1 == name) := by
  simp [hasName, List.any_append]

theorem filter_fresh {α : Type} : ∀ (l : List (String × α)) (name : String),
    hasName l name = false → l.filter (fun e => !(e.1 == name)) = l
  | [], _, _ => rfl
  | e :: l, name, h => by
    simp only [hasName, List.any_cons, Bool.or_eq_false_iff] at h
    have ih := filter_fresh l name h.2
    simp only [List.filter, h.1, Bool.not_false]
    rw [ih]

theorem find_append {α : Type} (l : List (String × α)) (e : String × α) (name : String)
    (x : α) (h : (l.find? (fun e => e.1 == name)).map Prod.snd = some x) :
    ((l ++ [e]).find? (fun e => e.1 == name)).map Prod.snd = some x := by
  cases hf : l.find? (fun e => e.1 == name) with
  | none => simp [hf] at h
  | some y =>
    rw [hf] at h
    simp [List.find?_append, hf, h]

theorem prefix_inj (p a b : String) (h : p ++ a = p ++ b) : a = b := by
  have := congrArg String.data h
  simp only [String.data_append] at this
  exact String.ext (List.append_cancel_left this)

theorem doFit_fresh (ext : Fitter R P F) (ws : Workspace R P F) (cut name fd : String)
    (full : List R) (hf : ws.findData fd = some full)
    (h1 : hasName ws.data ("data_" ++ name) = false)
    (h2 : hasName ws.objects ("fitResults_" ++ name) = false)
    (h3 : hasName ws.snapshots ("snap_" ++ name) = false) :
    doFit ext ws cut name fd = some
      { data := ws.data ++ [("data_" ++ name, full.filter (ext.select cut))]
        objects := ws.objects ++
          [("fitResults_" ++ name, (ext.fitTo ws.params (full.filter (ext.select cut))).2)]
        snapshots := ws.snapshots ++
          [("snap_" ++ name, (ext.fitTo ws.params (full.filter (ext.select cut))).1)]
        params := (ext.fitTo ws.params (full.filter (ext.select cut))).1 } := by
  unfold doFit
  rw [hf]
  simp only [Workspace.importData, h1, Workspace.importObject, h2, Workspace.saveSnapshot,
    Bool.false_eq_true, if_false, filter_fresh _ _ h3]

theorem fitAll_fresh (ext : Fitter R P F) (fd : String) (full : List R) :
    ∀ (S : List (String × String)) (ws : Workspace R P F),
    ws.findData fd = some full → Fresh ws S → (S.map Prod.snd).Nodup →
    ∃ ws2, fitAll ext fd ws S = some ws2 ∧ Registered ws ws2 (fitTrace ext full ws.params S)
  | [], ws, _, _, _ => ⟨ws, rfl, by simp [Registered, fitTrace]⟩
  | s :: S, ws, hf, hfresh, hnd => by
    obtain ⟨h1, h2, h3⟩ := hfresh s (by simp)
    have hstep := doFit_fresh ext ws s.1 s.2 fd full hf h1 h2 h3
    simp only [List.map_cons, List.nodup_cons] at hnd
    rw [fitAll, hstep]
    simp only
    have hne : ∀ t ∈ S, (s.2 == t.2) = false := by
      intro t ht
      cases hb : (s.2 == t.2) with
      | false => rfl
      | true => exact absurd (List.mem_map.2 ⟨t, ht, (eq_of_beq hb).symm⟩) hnd.1
    have hpre : ∀ (p : String) (t : String × String), t ∈ S → (p ++ s.2 == p ++ t.2) = false := by
      intro p t ht
      cases hb : (p ++ s.2 == p ++ t.2) with
      | false => rfl
      | true =>
        have := prefix_inj _ _ _ (eq_of_beq hb)
        have h4 := hne t ht
        rw [this] at h4
        simp at h4
    obtain ⟨ws2, hrun, hd, ho, hs, hp⟩ := fitAll_fresh ext fd full S
      { data := ws.data ++ [("data_" ++ s.2, full.filter (ext.select s.1))]
        objects := ws.objects ++
          [("fitResults_" ++ s.2, (ext.fitTo ws.params (full.filter (ext.select s.1))).2)]
        snapshots := ws.snapshots ++
          [("snap_" ++ s.2, (ext.fitTo ws.params (full.filter (ext.select s.1))).1)]
        params := (ext.fitTo ws.params (full.filter (ext.select s.1))).1 }
      (find_append _ _ _ _ hf)
      (by
        intro t ht
        obtain ⟨g1, g2, g3⟩ := hfresh t (List.mem_cons_of_mem _ ht)
        refine ⟨?_, ?_, ?_⟩
        · simp only [hasName_append, g1, hpre "data_" t ht, Bool.or_self]
        · simp only [hasName_append, g2, hpre "fitResults_" t ht, Bool.or_self]
        · simp only [hasName_append, g3, hpre "snap_" t ht, Bool.or_self])
      hnd.2
    refine ⟨ws2, hrun, ?_, ?_, ?_, ?_⟩
    · simpa [fitTrace] using hd
    · simpa [fitTrace] using ho
    · simpa [fitTrace] using hs
    · rw [hp]
      simp only [fitTrace]
      cases hS : fitTrace ext full (ext.fitTo ws.params (full.filter (ext.select s.1))).1 S with
      | nil => simp
      | cons e tr =>
        rw [List.getLast?_cons_cons, List.getLast?_eq_getLast _ (List.cons_ne_nil e tr)]
        rfl

theorem fitTrace_data (ext : Fitter R P F) (full : List R) :
    ∀ (S : List (String × String)) (p : P),
    (fitTrace ext full p S).map (fun e => ("data_" ++ e.1, e.2.1)) =
      S.map (fun s => ("data_" ++ s.2, full.filter (ext.select s.1)))
  | [], _ => rfl
  | s :: S, p => by simp [fitTrace, fitTrace_data ext full S]

theorem nchPt_nodup : (nchPtSelections.map Prod.snd).Nodup := by decide

theorem nch_nodup : (nchSelections.map Prod.snd).Nodup := by decide

theorem costh_nodup : (costhSelections.map Prod.snd).Nodup := by decide

theorem find_importData (ws : Workspace R P F) (name fd : String) (d full : List R)
    (hf : ws.findData fd = some full) : (ws.importData name d).findData fd = some full := by
  unfold Workspace.importData
  split
  · exact hf
  · exact find_append _ _ _ _ hf

theorem doFit_total (ext : Fitter R P F) (ws : Workspace R P F) (cut name fd : String)
    (full : List R) (hf : ws.findData fd = some full) :
    ∃ ws1, doFit ext ws cut name fd = some ws1 ∧
      ws1.params = (ext.fitTo ws.params (full.filter (ext.select cut))).1 ∧
      ws1.findData fd = some full ∧
      ws1.snapshots.getLast? = some ("snap_" ++ name, ws1.params) := by
  refine ⟨_, by unfold doFit; rw [hf], ?_, ?_, ?_⟩
  · simp only [Workspace.saveSnapshot, Workspace.importObject, Workspace.importData]
    split <;> split <;> rfl
  · have := find_importData ws ("data_" ++ name) fd (full.filter (ext.select cut)) full hf
    simp only [Workspace.saveSnapshot, Workspace.importObject, Workspace.findData] at this ⊢
    split <;> exact this
  · simp [Workspace.saveSnapshot]

theorem fitAll_total (ext : Fitter R P F) (fd : String) (full : List R) :
    ∀ (S : List (String × String)) (ws : Workspace R P F), ws.findData fd = some full →
    ∃ ws2, fitAll ext fd ws S = some ws2 ∧ ws2.findData fd = some full ∧
      ws2.params = ((fitTrace ext full ws.params S).getLast?.map (fun e => e.2.2.1)).getD ws.params
  | [], ws, hf => ⟨ws, rfl, hf, rfl⟩
  | s :: S, ws, hf => by
    obtain ⟨ws1, h1, hp, hf1, _⟩ := doFit_total ext ws s.1 s.2 fd full hf
    obtain ⟨ws2, h2, hf2, hp2⟩ := fitAll_total ext fd full S ws1 hf1
    refine ⟨ws2, by rw [fitAll, h1]; exact h2, hf2, ?_⟩
    rw [hp2, hp]
    simp only [fitTrace]
    cases hS : fitTrace ext full (ext.fitTo ws.params (full.filter (ext.select s.1))).1 S with
    | nil => simp
    | cons e tr =>
      rw [List.getLast?_cons_cons, List.getLast?_eq_getLast _ (List.cons_ne_nil e tr)]
      rfl

/-! ## The claims on the names of the program -/

/-- C4, amended: for `Cuts(pT = [15, 70], Nch = [0, 180])` the cut text is
`(Nch > 0 && Nch < 180) && (pT > 15 && pT < 70)` and the name is
`Nch_0to180_pT_15to70`: the stream writes the whole-number edges without a
decimal point, so the name holds no `p`. -/
theorem cuts_example :
    (mkCuts 15 70 0 180).getCutString =
      some "(Nch > 0 && Nch < 180) && (pT > 15 && pT < 70)" ∧
    (mkCuts 15 70 0 180).getCutName = some "Nch_0to180_pT_15to70" := by
  refine ⟨by decide, by decide⟩

/-- The name is not the one with `0p0`, `180p0`, `15p0` and `70p0`. -/
theorem cuts_name_without_p :
    (mkCuts 15 70 0 180).getCutName ≠ some "Nch_0p0to180p0_pT_15p0to70p0" := by
  decide

/-- C5, on the code: the pattern of `getCutName` has an unescaped point, which
accepts a digit: the value 100, rendered `100` without a decimal point, gets
the name `Nch_1p0`, and 105 gets `Nch_1p5`, where the pattern of `getBinName`
leaves the same texts unchanged. -/
theorem getCutName_unescaped :
    (lit 100 0).str = "100" ∧ getCutName "Nch" (lit 100 0) = "Nch_1p0" ∧
    regexReplace .dot "Nch_100" = "Nch_100" ∧
    (lit 105 0).str = "105" ∧ getCutName "Nch" (lit 105 0) = "Nch_1p5" ∧
    regexReplace .dot "Nch_105" = "Nch_105" := by
  refine ⟨by decide, by decide, by decide, by decide, by decide, by decide⟩

/-- C8: in each of the three drivers the names given to `doFit` are pairwise
distinct: the 9 names of `NchPtCutsFits`, the 6 names of `NchCutFits` and the 9
names of `costhBinFits`. -/
theorem names_distinct :
    (cutsList.map Cuts.getCutName = nchPtSelections.map (fun s => some s.2) ∧
      (nchPtSelections.map Prod.snd).length = 9 ∧ (cutsList.map Cuts.getCutName).Nodup) ∧
    (nchCuts.map (getCutName "Nch") = nchSelections.map Prod.snd ∧
      (nchSelections.map Prod.snd).length = 6 ∧ (nchCuts.map (getCutName "Nch")).Nodup) ∧
    ((List.range' 1 9).map (fun i => getBinName absCosThEdges i "absCosth") =
        costhSelections.map (fun s => some s.2) ∧
      (costhSelections.map Prod.snd).length = 9 ∧
      ((List.range' 1 9).map (fun i => getBinName absCosThEdges i "absCosth")).Nodup) := by
  refine ⟨⟨by decide, by decide, by decide⟩, ⟨by decide, by decide, by decide⟩,
    ⟨by decide, by decide, by decide⟩⟩

/-! ## The claims on the fits -/

/-- C7: two `doFit` calls in sequence on a workspace that holds the full
dataset both return; the parameter values after the first call are exactly those
the minimizer left, the second fit is run from these values, and the snapshot of
each call holds the values of its fit. A driver over any list of selections ends
with the values of its last fit, each fit having started from the values of the
fit before it. -/
theorem warm_start (ext : Fitter R P F) (ws : Workspace R P F) (c1 n1 c2 n2 fd : String)
    (full : List R) (S : List (String × String)) (hf : ws.findData fd = some full) :
    (∃ ws1 ws2, doFit ext ws c1 n1 fd = some ws1 ∧ doFit ext ws1 c2 n2 fd = some ws2 ∧
      ws1.params = (ext.fitTo ws.params (full.filter (ext.select c1))).1 ∧
      ws2.params = (ext.fitTo ws1.params (full.filter (ext.select c2))).1 ∧
      ws1.snapshots.getLast? = some ("snap_" ++ n1, ws1.params) ∧
      ws2.snapshots.getLast? = some ("snap_" ++ n2, ws2.params)) ∧
    ∃ ws3, fitAll ext fd ws S = some ws3 ∧
      ws3.params = ((fitTrace ext full ws.params S).getLast?.map (fun e => e.2.2.1)).getD
        ws.params := by
  obtain ⟨ws1, h1, hp1, hf1, hs1⟩ := doFit_total ext ws c1 n1 fd full hf
  obtain ⟨ws2, h2, hp2, _, hs2⟩ := doFit_total ext ws1 c2 n2 fd full hf1
  obtain ⟨ws3, h3, _, hp3⟩ := fitAll_total ext fd full S ws hf
  exact ⟨⟨ws1, ws2, h1, h2, hp1, hp2, hs1, hs2⟩, ws3, h3, hp3⟩

/-- Two fits and the driver `NchCutFits` with a fitter that reports its start
value: each fit starts where the fit before it ended. -/
theorem warm_start_witness :
    (setupWorkspace toyFitter 0 [1, 2, 3] "fitresult_fullModel_fitData").findData "fitData" =
      some [1, 2, 3] ∧
    (fitTrace toyFitter [1, 2, 3] 4 nchSelections).map (fun e => (e.2.2.2, e.2.2.1)) =
      [(4, 7), (7, 10), (10, 13), (13, 16), (16, 19), (19, 22)] ∧
    ((∃ ws1 ws2,
      doFit toyFitter (setupWorkspace toyFitter 0 [1, 2, 3] "fitresult_fullModel_fitData")
        "Nch > 2" "Nch_2" "fitData" = some ws1 ∧
      doFit toyFitter ws1 "Nch > 4" "Nch_4" "fitData" = some ws2 ∧
      ws1.params = (toyFitter.fitTo
        (setupWorkspace toyFitter 0 [1, 2, 3] "fitresult_fullModel_fitData").params
        ([1, 2, 3].filter (toyFitter.select "Nch > 2"))).1 ∧
      ws2.params = (toyFitter.fitTo ws1.params ([1, 2, 3].filter (toyFitter.select "Nch > 4"))).1 ∧
      ws1.snapshots.getLast? = some ("snap_" ++ "Nch_2", ws1.params) ∧
      ws2.snapshots.getLast? = some ("snap_" ++ "Nch_4", ws2.params)) ∧
    ∃ ws3, fitAll toyFitter "fitData"
        (setupWorkspace toyFitter 0 [1, 2, 3] "fitresult_fullModel_fitData") nchSelections =
        some ws3 ∧
      ws3.params = ((fitTrace toyFitter [1, 2, 3]
        (setupWorkspace toyFitter 0 [1, 2, 3] "fitresult_fullModel_fitData").params
        nchSelections).getLast?.map (fun e => e.2.2.1)).getD
        (setupWorkspace toyFitter 0 [1, 2, 3] "fitresult_fullModel_fitData").params) :=
  ⟨by decide, by decide,
    warm_start toyFitter (setupWorkspace toyFitter 0 [1, 2, 3] "fitresult_fullModel_fitData")
      "Nch > 2" "Nch_2" "Nch > 4" "Nch_4" "fitData" [1, 2, 3] nchSelections (by decide)⟩

theorem doFit_none (ext : Fitter R P F) (fd : String) (w : Workspace R P F) (c n : String) :
    doFit ext w c n fd = none ↔ w.findData fd = none := by
  unfold doFit
  cases w.findData fd <;> simp

/-- Every selection of `NchPtCutsFits` is empty and every one is registered. -/
theorem empty_subsets_all_registered :
    (∀ s ∈ nchPtSelections, [0, 1].filter (toyFitter.select s.1) = []) ∧
    (massFits_costh toyFitter 0 [0, 1] "fitresult_fullModel_fitData").map
        (fun w => (w.data, w.objects.map Prod.fst, w.snapshots.map Prod.fst)) =
      some ([("fullData", [0, 1]), ("fitData", [0, 1])] ++
          nchPtSelections.map (fun s => ("data_" ++ s.2, [])),
        "fitresult_fullModel_fitData" :: nchPtSelections.map (fun s => "fitResults_" ++ s.2),
        "snap_fullData" :: nchPtSelections.map (fun s => "snap_" ++ s.2)) := by
  refine ⟨by decide, by decide⟩

/-! ## The selection text of a bin -/

theorem dropLead_append (lead rest : List Char) : dropLead lead (lead ++ rest) = some rest := by
  unfold dropLead
  have : lead.isPrefixOf (lead ++ rest) = true :=
    List.isPrefixOf_iff_prefix.2 (List.prefix_append lead rest)
  simp [this]

theorem takeWhile_stop {p : Char → Bool} {d : Char} (hd : p d = false) (rest : List Char) :
    ∀ (L : List Char), (∀ c ∈ L, p c = true) → (L ++ d :: rest).takeWhile p = L
  | [], _ => by simp [List.takeWhile, hd]
  | x :: L, h => by
    rw [List.cons_append, List.takeWhile_cons, h x (by simp)]
    simp only [if_true]
    rw [takeWhile_stop hd rest L (fun c hc => h c (List.mem_cons_of_mem _ hc))]

theorem dropWhile_stop {p : Char → Bool} {d : Char} (hd : p d = false) (rest : List Char) :
    ∀ (L : List Char), (∀ c ∈ L, p c = true) → (L ++ d :: rest).dropWhile p = d :: rest
  | [], _ => by simp [List.dropWhile, hd]
  | x :: L, h => by
    rw [List.cons_append, List.dropWhile_cons, h x (by simp)]
    simp only [if_true]
    rw [dropWhile_stop hd rest L (fun c hc => h c (List.mem_cons_of_mem _ hc))]

theorem render_ne_space (x : Dbl) : ∀ c ∈ x.render, (c != ' ') = true := by
  intro c hc
  have := render_numChar x c hc
  cases h : (c != ' ') with
  | true => rfl
  | false =>
    have hc2 : c = ' ' := by simpa using h
    rw [hc2] at this
    exact absurd this (by decide)

theorem render_ne_paren (x : Dbl) : ∀ c ∈ x.render, (c != ')') = true := by
  intro c hc
  have := render_numChar x c hc
  cases h : (c != ')') with
  | true => rfl
  | false =>
    have hc2 : c = ')' := by simpa using h
    rw [hc2] at this
    exact absurd this (by decide)

theorem binExpr_data (v : String) (lo hi : Dbl) :
    ("(" ++ v ++ " > " ++ lo.str ++ " && " ++ v ++ " < " ++ hi.str ++ ")" : String).data =
      ('(' :: (v.data ++ [' ', '>', ' '])) ++ (lo.render ++ ' ' ::
        (['&', '&', ' '] ++ (v.data ++ [' ', '<', ' ']) ++ (hi.render ++ [')']))) := by
  simp [String.data_append, Dbl.str]

theorem evalBinExpr_text (v : String) (lo hi x : Dbl) :
    evalBinExpr v ("(" ++ v ++ " > " ++ lo.str ++ " && " ++ v ++ " < " ++ hi.str ++ ")") x =
      (readNum lo.render).bind (fun a => (readNum hi.render).bind (fun b =>
        some (a.lt x && x.lt b))) := by
  unfold evalBinExpr
  rw [binExpr_data, dropLead_append]
  simp only [Option.bind_eq_bind, Option.some_bind]
  rw [takeWhile_stop (by decide) _ _ (render_ne_space lo),
    dropWhile_stop (by decide) _ _ (render_ne_space lo)]
  have h2 : (' ' :: (['&', '&', ' '] ++ (v.data ++ [' ', '<', ' ']) ++ (hi.render ++ [')']))) =
      ([' ', '&', '&', ' '] ++ (v.data ++ [' ', '<', ' '])) ++ (hi.render ++ [')']) := by
    simp
  rw [h2, dropLead_append]
  simp only [Option.some_bind]
  rw [takeWhile_stop (by decide) _ _ (render_ne_paren hi),
    dropWhile_stop (by decide) _ _ (render_ne_paren hi)]
  simp only [beq_self_eq_true, if_true]
  rfl

theorem getBinExpr_some (E : List Dbl) (i : Nat) (v : String) (lo hi : Dbl)
    (h1 : 1 ≤ i) (h64 : i < 2 ^ 64) (hlo : E[i - 1]? = some lo) (hhi : E[i]? = some hi) :
    getBinExpr E i v =
      some ("(" ++ v ++ " > " ++ lo.str ++ " && " ++ v ++ " < " ++ hi.str ++ ")") := by
  unfold getBinExpr
  rw [prevIndex_eq h1 h64, hlo, hhi]
  rfl

theorem program_edges_read_back :
    (∀ e ∈ absCosThEdges, readNum e.render = some e) ∧
    (∀ e ∈ nchCuts, readNum e.render = some e) ∧
    (∀ c ∈ cutsList, ∀ e ∈ arr2 c.pT ++ arr2 c.Nch, readNum e.render = some e) := by
  refine ⟨by decide, by decide, by decide⟩

/-- C3, amended: for a valid bin index the selection text is
`(v > <low> && v < <high>)` with the two edges as the stream renders them, and
the engine reads the two numerals back from the text; when each edge is read
back from its rendering as itself (an edge that six significant digits write
exactly), the selection is true for a value `x` exactly when
`E[i-1] < x` and `x < E[i]`. -/
theorem getBinExpr_open (E : List Dbl) (i : Nat) (v : String) (lo hi x : Dbl)
    (h1 : 1 ≤ i) (h64 : i < 2 ^ 64) (hlo : E[i - 1]? = some lo) (hhi : E[i]? = some hi)
    (rlo : readNum lo.render = some lo) (rhi : readNum hi.render = some hi) :
    (∃ text, getBinExpr E i v = some text ∧
      text = "(" ++ v ++ " > " ++ lo.str ++ " && " ++ v ++ " < " ++ hi.str ++ ")" ∧
      evalBinExpr v text x = some (lo.lt x && x.lt hi)) ∧
    (∀ e ∈ absCosThEdges, readNum e.render = some e) ∧
    (∀ c ∈ cutsList, ∀ e ∈ arr2 c.pT ++ arr2 c.Nch, readNum e.render = some e) := by
  refine ⟨⟨_, getBinExpr_some E i v lo hi h1 h64 hlo hhi, rfl, ?_⟩,
    program_edges_read_back.1, program_edges_read_back.2.2⟩
  rw [evalBinExpr_text, rlo, rhi]
  rfl

/-- The bin `0.1 .. 0.2` of `absCosThEdges` at the value `0.15`. -/
theorem getBinExpr_open_witness :
    absCosThEdges[2 - 1]? = some (lit 1 1) ∧ absCosThEdges[2]? = some (lit 2 1) ∧
    readNum (lit 1 1).render = some (lit 1 1) ∧ readNum (lit 2 1).render = some (lit 2 1) ∧
    ((lit 1 1).lt (lit 15 2) && (lit 15 2).lt (lit 2 1)) = true ∧
    (∃ text, getBinExpr absCosThEdges 2 "TMath::Abs(costh_HX)" = some text ∧
      text = "(" ++ "TMath::Abs(costh_HX)" ++ " > " ++ (lit 1 1).str ++ " && " ++
        "TMath::Abs(costh_HX)" ++ " < " ++ (lit 2 1).str ++ ")" ∧
      evalBinExpr "TMath::Abs(costh_HX)" text (lit 15 2) =
        some ((lit 1 1).lt (lit 15 2) && (lit 15 2).lt (lit 2 1))) ∧
    (∀ e ∈ absCosThEdges, readNum e.render = some e) ∧
    (∀ c ∈ cutsList, ∀ e ∈ arr2 c.pT ++ arr2 c.Nch, readNum e.render = some e) :=
  ⟨by decide, by decide, by decide, by decide, by decide,
    getBinExpr_open absCosThEdges 2 "TMath::Abs(costh_HX)" (lit 1 1) (lit 2 1) (lit 15 2)
      (by decide) (by decide) (by decide) (by decide) (by decide) (by decide)⟩

/-- An edge with seven significant digits: a value strictly between the edges
that the selection text does not accept. -/
theorem binExpr_seven_digits :
    getBinExpr [lit 1234567 7, lit 1 0] 1 "x" = some "(x > 0.123457 && x < 1)" ∧
    (lit 1234567 7).lt (lit 1234569 7) = true ∧ (lit 1234569 7).lt (lit 1 0) = true ∧
    evalBinExpr "x" "(x > 0.123457 && x < 1)" (lit 1234569 7) = some false := by
  refine ⟨by decide, by decide, by decide, by decide⟩

/-! ## The searches end within their fuel -/

theorem scaleUp_found : ∀ (f n d k : Nat), d ≤ n * 10 ^ (k + f) →
    d ≤ n * 10 ^ (scaleUp f n d k)
  | 0, _, _, _, h => by simpa [scaleUp] using h
  | f + 1, n, d, k, h => by
    unfold scaleUp
    split
    · assumption
    · exact scaleUp_found f n d (k + 1) (by rwa [show k + 1 + f = k + (f + 1) by omega])

theorem scaleUp_least : ∀ (f n d k j : Nat), k ≤ j → j < scaleUp f n d k →
    ¬ d ≤ n * 10 ^ j
  | 0, _, _, k, j, h1, h2 => by simp only [scaleUp] at h2; omega
  | f + 1, n, d, k, j, h1, h2 => by
    unfold scaleUp at h2
    split at h2
    · omega
    · rename_i hk
      rcases Nat.eq_or_lt_of_le h1 with h | h
      · subst h; exact hk
      · exact scaleUp_least f n d (k + 1) j h h2

theorem scaleUp_ge : ∀ (f n d k : Nat), k ≤ scaleUp f n d k
  | 0, _, _, _ => by simp [scaleUp]
  | f + 1, n, d, k => by
    unfold scaleUp
    split
    · exact Nat.le_refl _
    · exact Nat.le_trans (Nat.le_succ k) (scaleUp_ge f n d (k + 1))

theorem decExp_below_one (n d : Nat) (hn : 0 < n) (h : n < d) :
    decExp n d = - ((scaleUp d n d 1 : Nat) : Int) ∧
    d ≤ n * 10 ^ (scaleUp d n d 1) ∧ n * 10 ^ (scaleUp d n d 1 - 1) < d := by
  refine ⟨by simp [decExp, Nat.not_le.2 h], ?_, ?_⟩
  · apply scaleUp_found
    have h1 : d < 10 ^ d := Nat.lt_pow_self (by decide) d
    have h2 : 10 ^ d ≤ 10 ^ (1 + d) := Nat.pow_le_pow_right (by decide) (by omega)
    have h3 : 10 ^ (1 + d) ≤ n * 10 ^ (1 + d) := Nat.le_mul_of_pos_left _ hn
    omega
  · have hge := scaleUp_ge d n d 1
    rcases Nat.eq_or_lt_of_le hge with h1 | h1
    · rw [← h1]; simpa using h
    · exact Nat.not_le.1 (scaleUp_least d n d 1 _ (by omega) (by omega))

theorem binDown_found : ∀ (f n d k : Nat), d ≤ n * 2 ^ (k + f) →
    d ≤ n * 2 ^ (binDown f n d k)
  | 0, _, _, _, h => by simpa [binDown] using h
  | f + 1, n, d, k, h => by
    unfold binDown
    split
    · assumption
    · exact binDown_found f n d (k + 1) (by rwa [show k + 1 + f = k + (f + 1) by omega])

theorem binDown_least : ∀ (f n d k j : Nat), k ≤ j → j < binDown f n d k →
    ¬ d ≤ n * 2 ^ j
  | 0, _, _, k, j, h1, h2 => by simp only [binDown] at h2; omega
  | f + 1, n, d, k, j, h1, h2 => by
    unfold binDown at h2
    split at h2
    · omega
    · rename_i hk
      rcases Nat.eq_or_lt_of_le h1 with h | h
      · subst h; exact hk
      · exact binDown_least f n d (k + 1) j h h2

theorem binDown_ge : ∀ (f n d k : Nat), k ≤ binDown f n d k
  | 0, _, _, _ => by simp [binDown]
  | f + 1, n, d, k => by
    unfold binDown
    split
    · exact Nat.le_refl _
    · exact Nat.le_trans (Nat.le_succ k) (binDown_ge f n d (k + 1))

theorem binUp_spec : ∀ (f n d k : Nat), d * 2 ^ k ≤ n → n < d * 2 ^ (k + f + 1) →
    d * 2 ^ (binUp f n d k) ≤ n ∧ n < d * 2 ^ (binUp f n d k + 1)
  | 0, _, _, _, h1, h2 => by simpa [binUp] using ⟨h1, h2⟩
  | f + 1, n, d, k, h1, h2 => by
    unfold binUp
    split
    · rename_i hk
      exact binUp_spec f n d (k + 1) hk (by rwa [show k + 1 + f + 1 = k + (f + 1) + 1 by omega])
    · rename_i hk
      exact ⟨h1, Nat.not_le.1 hk⟩

theorem binExp_spec (n d : Nat) (hn : 0 < n) (hd : 0 < d) :
    (d ≤ n → binExp n d = ((binUp n n d 0 : Nat) : Int) ∧
      d * 2 ^ (binUp n n d 0) ≤ n ∧ n < d * 2 ^ (binUp n n d 0 + 1)) ∧
    (n < d → binExp n d = - ((binDown d n d 1 : Nat) : Int) ∧
      d ≤ n * 2 ^ (binDown d n d 1) ∧ n * 2 ^ (binDown d n d 1 - 1) < d) := by
  constructor
  · intro h
    refine ⟨by simp [binExp, h], ?_⟩
    apply binUp_spec
    · simpa using h
    · have h1 : n < 2 ^ n := Nat.lt_pow_self (by decide) n
      have h2 : 2 ^ n ≤ 2 ^ (0 + n + 1) := Nat.pow_le_pow_right (by decide) (by omega)
      have h3 : 2 ^ (0 + n + 1) ≤ d * 2 ^ (0 + n + 1) := Nat.le_mul_of_pos_left _ hd
      omega
  · intro h
    refine ⟨by simp [binExp, Nat.not_le.2 h], ?_, ?_⟩
    · apply binDown_found
      have h1 : d < 2 ^ d := Nat.lt_pow_self (by decide) d
      have h2 : 2 ^ d ≤ 2 ^ (1 + d) := Nat.pow_le_pow_right (by decide) (by omega)
      have h3 : 2 ^ (1 + d) ≤ n * 2 ^ (1 + d) := Nat.le_mul_of_pos_left _ hn
      omega
    · have hge := binDown_ge d n d 1
      rcases Nat.eq_or_lt_of_le hge with h1 | h1
      · rw [← h1]; simpa using h
      · exact Nat.not_le.1 (binDown_least d n d 1 _ (by omega) (by omega))

/-! ## Renderings of some values -/

theorem render_examples :
    (lit 0 1).str = "0" ∧ (lit 5 1).str = "0.5" ∧ (lit 10 1).str = "1" ∧
    (lit 15 0).str = "15" ∧ (lit 180 0).str = "180" ∧ (lit 15 2).str = "0.15" ∧
    (lit 1234567 7).str = "0.123457" ∧ (lit 1234567 0).str = "1.23457e+06" ∧
    (lit 1 5).str = "1e-05" ∧ (toDouble true 5 10).str = "-0.5" ∧
    lit 1 1 = .fin false 7205759403792794 (-56) ∧
    regexReplace .dot "0.5" = "0p5" ∧ regexReplace .dot "1.2.3" = "1p2.3" := by
  refine ⟨by decide, by decide, by decide, by decide, by decide, by decide, by decide,
    by decide, by decide, by decide, by decide, by decide, by decide⟩


/-! ## The drivers as sequences of `doFit` calls, with what they register -/

theorem fitAll_eq_foldlM (ext : Fitter R P F) (fd : String) :
    ∀ (S : List (String × String)) (ws : Workspace R P F),
    fitAll ext fd ws S = S.foldlM (fun w s => doFit ext w s.1 s.2 fd) ws
  | [], _ => rfl
  | s :: S, ws => by
    rw [List.foldlM_cons, fitAll]
    cases doFit ext ws s.1 s.2 fd with
    | none => rfl
    | some ws1 => exact fitAll_eq_foldlM ext fd S ws1

theorem fitTrace_objects (ext : Fitter R P F) (full : List R) :
    ∀ (S : List (String × String)) (p : P),
    (fitTrace ext full p S).map (fun e => ("fitResults_" ++ e.1, e.2.2.2)) =
      List.zipWith (fun s q => ("fitResults_" ++ s.2, (ext.fitTo q (full.filter (ext.select s.1))).2))
        S (S.scanl (fun q s => (ext.fitTo q (full.filter (ext.select s.1))).1) p)
  | [], _ => rfl
  | s :: S, p => by
    simp only [fitTrace, List.map_cons, List.scanl_cons, List.singleton_append,
      List.zipWith_cons_cons]
    rw [fitTrace_objects ext full S]

theorem fitTrace_snapshots (ext : Fitter R P F) (full : List R) :
    ∀ (S : List (String × String)) (p : P),
    (fitTrace ext full p S).map (fun e => ("snap_" ++ e.1, e.2.2.1)) =
      List.zipWith (fun s q => ("snap_" ++ s.2, (ext.fitTo q (full.filter (ext.select s.1))).1))
        S (S.scanl (fun q s => (ext.fitTo q (full.filter (ext.select s.1))).1) p)
  | [], _ => rfl
  | s :: S, p => by
    simp only [fitTrace, List.map_cons, List.scanl_cons, List.singleton_append,
      List.zipWith_cons_cons]
    rw [fitTrace_snapshots ext full S]

theorem fitTrace_params (ext : Fitter R P F) (full : List R) :
    ∀ (S : List (String × String)) (p : P),
    ((fitTrace ext full p S).getLast?.map (fun e => e.2.2.1)).getD p =
      S.foldl (fun q s => (ext.fitTo q (full.filter (ext.select s.1))).1) p
  | [], _ => rfl
  | s :: S, p => by
    rw [List.foldl_cons, ← fitTrace_params ext full S]
    simp only [fitTrace]
    cases hS : fitTrace ext full (ext.fitTo p (full.filter (ext.select s.1))).1 S with
    | nil => simp
    | cons e tr =>
      rw [List.getLast?_cons_cons, List.getLast?_eq_getLast _ (List.cons_ne_nil e tr)]
      rfl

theorem foldlM_registers (ext : Fitter R P F) (fd : String) (full : List R)
    (S : List (String × String)) (ws : Workspace R P F)
    (hf : ws.findData fd = some full) (hfresh : Fresh ws S) (hnd : (S.map Prod.snd).Nodup) :
    ∃ ws2, S.foldlM (fun w s => doFit ext w s.1 s.2 fd) ws = some ws2 ∧
      ws2.data = ws.data ++
        S.map (fun s => ("data_" ++ s.2, full.filter (ext.select s.1))) ∧
      ws2.objects = ws.objects ++
        List.zipWith
          (fun s q => ("fitResults_" ++ s.2, (ext.fitTo q (full.filter (ext.select s.1))).2))
          S (S.scanl (fun q s => (ext.fitTo q (full.filter (ext.select s.1))).1) ws.params) ∧
      ws2.snapshots = ws.snapshots ++
        List.zipWith
          (fun s q => ("snap_" ++ s.2, (ext.fitTo q (full.filter (ext.select s.1))).1))
          S (S.scanl (fun q s => (ext.fitTo q (full.filter (ext.select s.1))).1) ws.params) ∧
      ws2.params = S.foldl (fun q s => (ext.fitTo q (full.filter (ext.select s.1))).1) ws.params := by
  obtain ⟨ws2, h, hd, ho, hs, hp⟩ := fitAll_fresh ext fd full S ws hf hfresh hnd
  refine ⟨ws2, by rw [← fitAll_eq_foldlM, h], ?_, ?_, ?_, ?_⟩
  · rw [hd, fitTrace_data]
  · rw [ho, fitTrace_objects]
  · rw [hs, fitTrace_snapshots]
  · rw [hp, fitTrace_params]

theorem hasName_names {α : Type} (l : List (String × α)) (name : String) :
    hasName l name = (l.map Prod.fst).any (fun n => n == name) := by
  unfold hasName
  induction l with
  | nil => rfl
  | cons e l ih => simp only [List.any_cons, List.map_cons, ih]

theorem setup_eq (ext : Fitter R P F) (p0 : P) (tree : List R) :
    setupWorkspace ext p0 tree "fitresult_fullModel_fitData" =
      { data := [("fullData", tree), ("fitData", tree)]
        objects := [("fitresult_fullModel_fitData", (ext.fitTo p0 tree).2)]
        snapshots := [("snap_fullData", (ext.fitTo p0 tree).1)]
        params := (ext.fitTo p0 tree).1 } := by
  have h1 : hasName ([] : List (String × List R)) "fullData" = false := rfl
  have h2 : hasName [("fullData", tree)] "fitData" = false := by
    rw [hasName_names]; simp only [List.map_cons, List.map_nil]; decide
  have h3 : hasName ([] : List (String × F)) "fitresult_fullModel_fitData" = false := rfl
  simp [setupWorkspace, Workspace.importData, Workspace.importObject, Workspace.saveSnapshot,
    h1, h2, h3]

theorem setup_fresh (ext : Fitter R P F) (p0 : P) (tree : List R) :
    Fresh (setupWorkspace ext p0 tree "fitresult_fullModel_fitData") nchPtSelections := by
  rw [setup_eq]
  intro s hs
  simp only [hasName_names, List.map_cons, List.map_nil]
  revert s
  decide

theorem setup_find (ext : Fitter R P F) (p0 : P) (tree : List R) :
    (setupWorkspace ext p0 tree "fitresult_fullModel_fitData").findData "fitData" =
      some tree := by
  rw [setup_eq]
  have : ("fullData" == "fitData") = false := by decide
  simp [Workspace.findData, List.find?, this]

theorem massFits_costh_registers (ext : Fitter R P F) (p0 : P) (tree : List R) :
    ∃ ws2, massFits_costh ext p0 tree "fitresult_fullModel_fitData" = some ws2 ∧
      ws2.data = [("fullData", tree), ("fitData", tree)] ++
        nchPtSelections.map (fun s => ("data_" ++ s.2, tree.filter (ext.select s.1))) ∧
      ws2.objects = ("fitresult_fullModel_fitData", (ext.fitTo p0 tree).2) ::
        List.zipWith
          (fun s q => ("fitResults_" ++ s.2, (ext.fitTo q (tree.filter (ext.select s.1))).2))
          nchPtSelections
          (nchPtSelections.scanl (fun q s => (ext.fitTo q (tree.filter (ext.select s.1))).1)
            (ext.fitTo p0 tree).1) ∧
      ws2.snapshots = ("snap_fullData", (ext.fitTo p0 tree).1) ::
        List.zipWith
          (fun s q => ("snap_" ++ s.2, (ext.fitTo q (tree.filter (ext.select s.1))).1))
          nchPtSelections
          (nchPtSelections.scanl (fun q s => (ext.fitTo q (tree.filter (ext.select s.1))).1)
            (ext.fitTo p0 tree).1) ∧
      ws2.params = nchPtSelections.foldl
        (fun q s => (ext.fitTo q (tree.filter (ext.select s.1))).1) (ext.fitTo p0 tree).1 := by
  obtain ⟨ws2, h, hd, ho, hs, hp⟩ := foldlM_registers ext "fitData" tree nchPtSelections _
    (setup_find ext p0 tree) (setup_fresh ext p0 tree) nchPt_nodup
  rw [setup_eq] at hd ho hs hp
  refine ⟨ws2, ?_, hd, ho, hs, hp⟩
  unfold massFits_costh
  rw [NchPtCutsFits_eq, fitAll_eq_foldlM, h]

/-! ## The claim on the drivers -/

/-- C6: each driver is its `doFit` calls one after another in the order of its
selections (9, 6 and 9 of them, with pairwise distinct names). Such a sequence
of calls over selections `S`, on a workspace that holds the full dataset and
none of the names to be registered, returns a workspace in which, after the
older entries and in the order of the selections, each selection has its subset
under `data_` plus its name, the result of its fit under `fitResults_` plus its
name and the parameter values of its fit under `snap_` plus its name, each fit
started from the values the fit before it left. The program itself, for every
tree, ends with the two copies of the tree and the entries of the 9 selections
of `NchPtCutsFits` registered in this way. -/
theorem drivers_register (ext : Fitter R P F) (ws : Workspace R P F) (fd : String)
    (full : List R) (S : List (String × String)) (hf : ws.findData fd = some full)
    (hfresh : Fresh ws S) (hnd : (S.map Prod.snd).Nodup) :
    (NchPtCutsFits ext ws fd =
        nchPtSelections.foldlM (fun w s => doFit ext w s.1 s.2 fd) ws ∧
      nchPtSelections.length = 9 ∧ (nchPtSelections.map Prod.snd).Nodup) ∧
    (NchCutFits ext ws fd = nchSelections.foldlM (fun w s => doFit ext w s.1 s.2 fd) ws ∧
      nchSelections.length = 6 ∧ (nchSelections.map Prod.snd).Nodup) ∧
    (costhBinFits ext ws fd = costhSelections.foldlM (fun w s => doFit ext w s.1 s.2 fd) ws ∧
      costhSelections.length = 9 ∧ (costhSelections.map Prod.snd).Nodup) ∧
    (∃ ws2, S.foldlM (fun w s => doFit ext w s.1 s.2 fd) ws = some ws2 ∧
      ws2.data = ws.data ++
        S.map (fun s => ("data_" ++ s.2, full.filter (ext.select s.1))) ∧
      ws2.objects = ws.objects ++
        List.zipWith
          (fun s q => ("fitResults_" ++ s.2, (ext.fitTo q (full.filter (ext.select s.1))).2))
          S (S.scanl (fun q s => (ext.fitTo q (full.filter (ext.select s.1))).1) ws.params) ∧
      ws2.snapshots = ws.snapshots ++
        List.zipWith
          (fun s q => ("snap_" ++ s.2, (ext.fitTo q (full.filter (ext.select s.1))).1))
          S (S.scanl (fun q s => (ext.fitTo q (full.filter (ext.select s.1))).1) ws.params) ∧
      ws2.params =
        S.foldl (fun q s => (ext.fitTo q (full.filter (ext.select s.1))).1) ws.params) ∧
    ∀ (p0 : P) (tree : List R),
      ∃ ws2, massFits_costh ext p0 tree "fitresult_fullModel_fitData" = some ws2 ∧
        ws2.data = [("fullData", tree), ("fitData", tree)] ++
          nchPtSelections.map (fun s => ("data_" ++ s.2, tree.filter (ext.select s.1))) ∧
        ws2.objects = ("fitresult_fullModel_fitData", (ext.fitTo p0 tree).2) ::
          List.zipWith
            (fun s q => ("fitResults_" ++ s.2, (ext.fitTo q (tree.filter (ext.select s.1))).2))
            nchPtSelections
            (nchPtSelections.scanl (fun q s => (ext.fitTo q (tree.filter (ext.select s.1))).1)
              (ext.fitTo p0 tree).1) ∧
        ws2.snapshots = ("snap_fullData", (ext.fitTo p0 tree).1) ::
          List.zipWith
            (fun s q => ("snap_" ++ s.2, (ext.fitTo q (tree.filter (ext.select s.1))).1))
            nchPtSelections
            (nchPtSelections.scanl (fun q s => (ext.fitTo q (tree.filter (ext.select s.1))).1)
              (ext.fitTo p0 tree).1) ∧
        ws2.params = nchPtSelections.foldl
          (fun q s => (ext.fitTo q (tree.filter (ext.select s.1))).1) (ext.fitTo p0 tree).1 := by
  refine ⟨⟨?_, rfl, nchPt_nodup⟩, ⟨?_, rfl, nch_nodup⟩, ⟨?_, rfl, costh_nodup⟩,
    foldlM_registers ext fd full S ws hf hfresh hnd, massFits_costh_registers ext⟩
  · rw [NchPtCutsFits_eq, fitAll_eq_foldlM]
  · rw [NchCutFits_eq, fitAll_eq_foldlM]
  · rw [costhBinFits_eq, fitAll_eq_foldlM]

/-- The driver `NchCutFits` on the workspace that `massFits_costh` sets up, with
the small fitter: the registered subsets, fit results (the start value of each
fit), snapshots and the last parameter value. -/
theorem drivers_register_witness :
    (setupWorkspace toyFitter 0 [1, 2, 3] "fitresult_fullModel_fitData").findData "fitData" =
      some [1, 2, 3] ∧
    Fresh (setupWorkspace toyFitter 0 [1, 2, 3] "fitresult_fullModel_fitData") nchSelections ∧
    (nchSelections.map Prod.snd).Nodup ∧
    (NchCutFits toyFitter (setupWorkspace toyFitter 0 [1, 2, 3] "fitresult_fullModel_fitData")
        "fitData").map (fun w => (w.data, w.objects, w.snapshots, w.params)) =
      some ([("fullData", [1, 2, 3]), ("fitData", [1, 2, 3]), ("data_Nch_2", [2, 3]),
          ("data_Nch_4", [2, 3]), ("data_Nch_5", [2, 3]), ("data_Nch_6", [2, 3]),
          ("data_Nch_8", [2, 3]), ("data_Nch_10", [2, 3])],
        [("fitresult_fullModel_fitData", 0), ("fitResults_Nch_2", 4), ("fitResults_Nch_4", 7),
          ("fitResults_Nch_5", 10), ("fitResults_Nch_6", 13), ("fitResults_Nch_8", 16),
          ("fitResults_Nch_10", 19)],
        [("snap_fullData", 4), ("snap_Nch_2", 7), ("snap_Nch_4", 10), ("snap_Nch_5", 13),
          ("snap_Nch_6", 16), ("snap_Nch_8", 19), ("snap_Nch_10", 22)],
        22) ∧
    ∃ ws2, nchSelections.foldlM (fun w s => doFit toyFitter w s.1 s.2 "fitData")
        (setupWorkspace toyFitter 0 [1, 2, 3] "fitresult_fullModel_fitData") = some ws2 ∧
      ws2.data = (setupWorkspace toyFitter 0 [1, 2, 3] "fitresult_fullModel_fitData").data ++
        nchSelections.map
          (fun s => ("data_" ++ s.2, [1, 2, 3].filter (toyFitter.select s.1))) ∧
      ws2.objects =
        (setupWorkspace toyFitter 0 [1, 2, 3] "fitresult_fullModel_fitData").objects ++
        List.zipWith
          (fun s q => ("fitResults_" ++ s.2,
            (toyFitter.fitTo q ([1, 2, 3].filter (toyFitter.select s.1))).2))
          nchSelections
          (nchSelections.scanl
            (fun q s => (toyFitter.fitTo q ([1, 2, 3].filter (toyFitter.select s.1))).1)
            (setupWorkspace toyFitter 0 [1, 2, 3] "fitresult_fullModel_fitData").params) ∧
      ws2.snapshots =
        (setupWorkspace toyFitter 0 [1, 2, 3] "fitresult_fullModel_fitData").snapshots ++
        List.zipWith
          (fun s q => ("snap_" ++ s.2,
            (toyFitter.fitTo q ([1, 2, 3].filter (toyFitter.select s.1))).1))
          nchSelections
          (nchSelections.scanl
            (fun q s => (toyFitter.fitTo q ([1, 2, 3].filter (toyFitter.select s.1))).1)
            (setupWorkspace toyFitter 0 [1, 2, 3] "fitresult_fullModel_fitData").params) ∧
      ws2.params = nchSelections.foldl
        (fun q s => (toyFitter.fitTo q ([1, 2, 3].filter (toyFitter.select s.1))).1)
        (setupWorkspace toyFitter 0 [1, 2, 3] "fitresult_fullModel_fitData").params :=
  ⟨by decide, by unfold Fresh; decide, by decide, by decide,
    (drivers_register toyFitter
      (setupWorkspace toyFitter 0 [1, 2, 3] "fitresult_fullModel_fitData") "fitData" [1, 2, 3]
      nchSelections (by decide) (by unfold Fresh; decide) (by decide)).2.2.2.1⟩

/-! ## The claim on empty subsets -/

/-- C9, amended: `doFit` makes no check on the size of the subset. On a workspace
that holds the full dataset and none of the names to be registered, a selection
that keeps no record is treated like any other: the call returns the workspace
with the empty subset under `data_` plus the name, the result of the fit on the
empty subset under `fitResults_` plus the name, the values of that fit as the
snapshot and as the current values. A sequence of `doFit` calls that starts with
such a selection goes on: every following selection has its subset, its fit
result and its snapshot registered, in order, the first of them fitted from the
values that the fit on the empty subset left. The only failure of `doFit` is a
full dataset that is not in the workspace, and the three drivers are such
sequences of calls. -/
theorem empty_subset_fitted (ext : Fitter R P F) (ws : Workspace R P F) (cut name fd : String)
    (full : List R) (S : List (String × String)) (hf : ws.findData fd = some full)
    (he : full.filter (ext.select cut) = [])
    (hfresh : Fresh ws ((cut, name) :: S))
    (hnd : (((cut, name) :: S).map Prod.snd).Nodup) :
    doFit ext ws cut name fd = some
      { data := ws.data ++ [("data_" ++ name, [])]
        objects := ws.objects ++ [("fitResults_" ++ name, (ext.fitTo ws.params []).2)]
        snapshots := ws.snapshots ++ [("snap_" ++ name, (ext.fitTo ws.params []).1)]
        params := (ext.fitTo ws.params []).1 } ∧
    (∃ ws2, ((cut, name) :: S).foldlM (fun w s => doFit ext w s.1 s.2 fd) ws = some ws2 ∧
      ws2.data = ws.data ++ ("data_" ++ name, []) ::
        S.map (fun s => ("data_" ++ s.2, full.filter (ext.select s.1))) ∧
      ws2.objects = ws.objects ++ ("fitResults_" ++ name, (ext.fitTo ws.params []).2) ::
        List.zipWith
          (fun s q => ("fitResults_" ++ s.2, (ext.fitTo q (full.filter (ext.select s.1))).2))
          S (S.scanl (fun q s => (ext.fitTo q (full.filter (ext.select s.1))).1)
            (ext.fitTo ws.params []).1) ∧
      ws2.snapshots = ws.snapshots ++ ("snap_" ++ name, (ext.fitTo ws.params []).1) ::
        List.zipWith
          (fun s q => ("snap_" ++ s.2, (ext.fitTo q (full.filter (ext.select s.1))).1))
          S (S.scanl (fun q s => (ext.fitTo q (full.filter (ext.select s.1))).1)
            (ext.fitTo ws.params []).1) ∧
      ws2.params = S.foldl (fun q s => (ext.fitTo q (full.filter (ext.select s.1))).1)
        (ext.fitTo ws.params []).1) ∧
    (∀ (w : Workspace R P F) (c n : String),
      doFit ext w c n fd = none ↔ w.findData fd = none) ∧
    (∀ w : Workspace R P F, NchPtCutsFits ext w fd =
      nchPtSelections.foldlM (fun w s => doFit ext w s.1 s.2 fd) w) ∧
    (∀ w : Workspace R P F, NchCutFits ext w fd =
      nchSelections.foldlM (fun w s => doFit ext w s.1 s.2 fd) w) ∧
    (∀ w : Workspace R P F, costhBinFits ext w fd =
      costhSelections.foldlM (fun w s => doFit ext w s.1 s.2 fd) w) := by
  obtain ⟨h1, h2, h3⟩ := hfresh (cut, name) (by simp)
  have hstep := doFit_fresh ext ws cut name fd full hf h1 h2 h3
  rw [he] at hstep
  obtain ⟨ws2, h, hd, ho, hs, hp⟩ := foldlM_registers ext fd full _ ws hf hfresh hnd
  simp only [List.map_cons, List.scanl_cons, List.singleton_append, List.zipWith_cons_cons,
    List.foldl_cons, he] at hd ho hs hp
  refine ⟨hstep, ⟨ws2, h, hd, ho, hs, hp⟩, doFit_none ext fd, ?_, ?_, ?_⟩
  · intro w; rw [NchPtCutsFits_eq, fitAll_eq_foldlM]
  · intro w; rw [NchCutFits_eq, fitAll_eq_foldlM]
  · intro w; rw [costhBinFits_eq, fitAll_eq_foldlM]

/-- The driver `NchCutFits` on a dataset of two records of which no selection
keeps one: the first call and the whole sequence. -/
theorem empty_subset_fitted_witness :
    (setupWorkspace toyFitter 0 [0, 1] "fitresult_fullModel_fitData").findData "fitData" =
      some [0, 1] ∧
    [0, 1].filter (toyFitter.select "Nch > 2") = [] ∧
    Fresh (setupWorkspace toyFitter 0 [0, 1] "fitresult_fullModel_fitData")
      (("Nch > 2", "Nch_2") :: nchSelections.tail) ∧
    ((("Nch > 2", "Nch_2") :: nchSelections.tail).map Prod.snd).Nodup ∧
    (NchCutFits toyFitter (setupWorkspace toyFitter 0 [0, 1] "fitresult_fullModel_fitData")
        "fitData").map (fun w => (w.data, w.objects, w.snapshots, w.params)) =
      some ([("fullData", [0, 1]), ("fitData", [0, 1]), ("data_Nch_2", []),
          ("data_Nch_4", []), ("data_Nch_5", []), ("data_Nch_6", []),
          ("data_Nch_8", []), ("data_Nch_10", [])],
        [("fitresult_fullModel_fitData", 0), ("fitResults_Nch_2", 3), ("fitResults_Nch_4", 4),
          ("fitResults_Nch_5", 5), ("fitResults_Nch_6", 6), ("fitResults_Nch_8", 7),
          ("fitResults_Nch_10", 8)],
        [("snap_fullData", 3), ("snap_Nch_2", 4), ("snap_Nch_4", 5), ("snap_Nch_5", 6),
          ("snap_Nch_6", 7), ("snap_Nch_8", 8), ("snap_Nch_10", 9)],
        9) ∧
    doFit toyFitter (setupWorkspace toyFitter 0 [0, 1] "fitresult_fullModel_fitData")
        "Nch > 2" "Nch_2" "fitData" = some
      { data := (setupWorkspace toyFitter 0 [0, 1] "fitresult_fullModel_fitData").data ++
          [("data_" ++ "Nch_2", [])]
        objects := (setupWorkspace toyFitter 0 [0, 1] "fitresult_fullModel_fitData").objects ++
          [("fitResults_" ++ "Nch_2", (toyFitter.fitTo
            (setupWorkspace toyFitter 0 [0, 1] "fitresult_fullModel_fitData").params []).2)]
        snapshots :=
          (setupWorkspace toyFitter 0 [0, 1] "fitresult_fullModel_fitData").snapshots ++
          [("snap_" ++ "Nch_2", (toyFitter.fitTo
            (setupWorkspace toyFitter 0 [0, 1] "fitresult_fullModel_fitData").params []).1)]
        params := (toyFitter.fitTo
          (setupWorkspace toyFitter 0 [0, 1] "fitresult_fullModel_fitData").params []).1 } :=
  ⟨by decide, by decide, by unfold Fresh; decide, by decide, by decide,
    (empty_subset_fitted toyFitter
      (setupWorkspace toyFitter 0 [0, 1] "fitresult_fullModel_fitData")
      "Nch > 2" "Nch_2" "fitData" [0, 1] nchSelections.tail (by decide) (by decide)
      (by unfold Fresh; decide) (by decide)).1⟩

/-! ## Rounding keeps a bound that is a whole number -/

theorem roundHalfEven_le (n d K : Nat) (hd : 0 < d) (h : n ≤ K * d) :
    roundHalfEven n d ≤ K := by
  have hdm := Nat.div_add_mod n d
  have hq : n / d ≤ K := by
    apply Nat.div_le_of_le_mul
    rw [Nat.mul_comm]; exact h
  have hstrict : 0 < n % d → n / d + 1 ≤ K := by
    intro hr
    rcases Nat.lt_or_ge (n / d) K with h1 | h1
    · exact h1
    · have hK : n / d = K := Nat.le_antisymm hq h1
      rw [hK, Nat.mul_comm] at hdm
      omega
  unfold roundHalfEven
  simp only
  split
  · exact hq
  · split
    · exact hstrict (by omega)
    · split
      · exact hq
      · exact hstrict (by omega)

theorem binExp_lt (n d c : Nat) (hn : 0 < n) (hd : 0 < d) (h : n ≤ c * d) (hc : c < 2 ^ 52) :
    binExp n d < 52 := by
  rcases Nat.lt_or_ge n d with hlt | hge
  · have := ((binExp_spec n d hn hd).2 hlt).1
    rw [this]
    omega
  · obtain ⟨heq, hlow, _⟩ := (binExp_spec n d hn hd).1 hge
    rw [heq]
    have h1 : d * 2 ^ (binUp n n d 0) ≤ d * c := by
      rw [Nat.mul_comm d c]; exact Nat.le_trans hlow h
    have h2 : 2 ^ (binUp n n d 0) ≤ c := Nat.le_of_mul_le_mul_left h1 hd
    have h3 : binUp n n d 0 < 52 := by
      by_contra hcon
      have : 2 ^ 52 ≤ 2 ^ (binUp n n d 0) := Nat.pow_le_pow_right (by decide) (by omega)
      omega
    omega

theorem toDouble_bound (neg : Bool) (n d c : Nat) (hn : 0 < n) (hd : 0 < d)
    (h : n ≤ c * d) (hc : c < 2 ^ 52) :
    ∃ m e, toDouble neg n d = .fin neg m e ∧ fracNum m e ≤ c * fracDen e := by
  have hb := binExp_lt n d c hn hd h hc
  unfold toDouble
  rw [if_neg (by omega)]
  simp only
  generalize he : (if binExp n d - 52 < -1074 then (-1074 : Int) else binExp n d - 52) = e
  have hneg : e < 0 := by
    rw [← he]; split <;> omega
  have h0 : ¬ (0 ≤ e) := by omega
  simp only [if_neg h0]
  have hm : roundHalfEven (n * 2 ^ (-e).toNat) d ≤ c * 2 ^ (-e).toNat := by
    apply roundHalfEven_le _ _ _ hd
    calc n * 2 ^ (-e).toNat ≤ c * d * 2 ^ (-e).toNat := Nat.mul_le_mul_right _ h
      _ = c * 2 ^ (-e).toNat * d := by ring
  generalize roundHalfEven (n * 2 ^ (-e).toNat) d = m at hm
  by_cases h53 : m = 2 ^ 53
  · simp only [if_pos h53]
    rw [if_neg (by omega)]
    refine ⟨_, _, rfl, ?_⟩
    unfold fracNum fracDen
    have e1 : (e + 1).toNat = 0 := by omega
    have e2 : (-e).toNat = (-(e + 1)).toNat + 1 := by omega
    rw [e1]
    rw [h53, e2, show (2 : Nat) ^ ((-(e + 1)).toNat + 1) = 2 ^ (-(e + 1)).toNat * 2 from
      Nat.pow_succ _ _, ← Nat.mul_assoc] at hm
    simp only [Nat.pow_zero, Nat.mul_one]
    generalize (2 : Nat) ^ (-(e + 1)).toNat = D at hm ⊢
    omega
  · simp only [if_neg h53]
    rw [if_neg (by omega)]
    refine ⟨_, _, rfl, ?_⟩
    unfold fracNum fracDen
    have e1 : e.toNat = 0 := by omega
    rw [e1]
    simpa using hm

theorem signedNum_zero (neg : Bool) : signedNum neg 0 0 = 0 := by
  cases neg <;> simp [signedNum, fracNum]

theorem fracDen_pos (e : Int) : (0 : Int) < (fracDen e : Int) := by
  unfold fracDen
  exact_mod_cast Nat.pow_pos (by decide)

theorem sub_within (x y : Dbl) (lo hi : Int) (hx : x.within lo hi) (hy : y.within 0 1)
    (hlo : lo ≤ 1) (hhi : 0 ≤ hi) (hlo2 : 1 - lo < 2 ^ 52) (hhi2 : hi < 2 ^ 52) :
    (x.sub y).within (lo - 1) hi := by
  cases x with
  | inf _ => exact hx.elim
  | nan _ => exact hx.elim
  | fin n1 m1 e1 =>
  cases y with
  | inf _ => exact hy.elim
  | nan _ => exact hy.elim
  | fin n2 m2 e2 =>
  simp only [Dbl.within] at hx hy
  have hd1 := fracDen_pos e1
  have hd2 := fracDen_pos e2
  obtain ⟨hx1, hx2⟩ := hx
  obtain ⟨hy1, hy2⟩ := hy
  have p1 : lo * (fracDen e1 : Int) * (fracDen e2 : Int) ≤
      signedNum n1 m1 e1 * (fracDen e2 : Int) := mul_le_mul_of_nonneg_right hx1 (le_of_lt hd2)
  have p2 : signedNum n1 m1 e1 * (fracDen e2 : Int) ≤
      hi * (fracDen e1 : Int) * (fracDen e2 : Int) := mul_le_mul_of_nonneg_right hx2 (le_of_lt hd2)
  have p3 : 0 * (fracDen e1 : Int) ≤ signedNum n2 m2 e2 * (fracDen e1 : Int) := by
    have := mul_le_mul_of_nonneg_right hy1 (le_of_lt hd1)
    simpa using this
  have p4 : signedNum n2 m2 e2 * (fracDen e1 : Int) ≤
      1 * (fracDen e2 : Int) * (fracDen e1 : Int) := mul_le_mul_of_nonneg_right hy2 (le_of_lt hd1)
  unfold Dbl.sub
  simp only
  generalize hnum : signedNum n1 m1 e1 * (fracDen e2 : Int) -
    signedNum n2 m2 e2 * (fracDen e1 : Int) = num
  have hden : (0 : Nat) < fracDen e1 * fracDen e2 := by
    unfold fracDen
    exact Nat.mul_pos (Nat.pow_pos (by decide)) (Nat.pow_pos (by decide))
  by_cases hz : num = 0
  · rw [if_pos hz]
    simp only [Dbl.within, signedNum_zero]
    have : ((fracDen 0 : Nat) : Int) = 1 := by simp [fracDen]
    rw [this]
    omega
  · rw [if_neg hz]
    have hpos : 0 < num.natAbs := Int.natAbs_pos.2 hz
    by_cases hneg : num < 0
    · have hc : (((1 - lo).toNat : Nat) : Int) = 1 - lo := Int.toNat_of_nonneg (by omega)
      have hbound : num.natAbs ≤ (1 - lo).toNat * (fracDen e1 * fracDen e2) := by
        have h1 : ((num.natAbs : Nat) : Int) = -num := by omega
        have h2 : -num ≤ (1 - lo) * ((fracDen e1 : Int) * (fracDen e2 : Int)) := by
          rw [← hnum]; nlinarith
        have h3 : ((num.natAbs : Nat) : Int) ≤
            (((1 - lo).toNat : Nat) : Int) * ((fracDen e1 : Int) * (fracDen e2 : Int)) := by
          rw [h1, hc]; exact h2
        exact_mod_cast h3
      obtain ⟨m, e, heq, hb⟩ := toDouble_bound true num.natAbs _ (1 - lo).toNat hpos hden hbound
        (by omega)
      rw [decide_eq_true hneg, heq]
      simp only [Dbl.within, signedNum, if_true]
      have hb2 : ((fracNum m e : Nat) : Int) ≤ (1 - lo) * (fracDen e : Int) := by
        rw [← hc]; exact_mod_cast hb
      have hde := fracDen_pos e
      have hn0 : (0 : Int) ≤ (fracNum m e : Int) := Int.ofNat_nonneg _
      constructor
      · linarith
      · have := mul_nonneg hhi (le_of_lt hde)
        linarith
    · have hgt : 0 < num := by omega
      have hc : ((hi.toNat : Nat) : Int) = hi := Int.toNat_of_nonneg hhi
      have hbound : num.natAbs ≤ hi.toNat * (fracDen e1 * fracDen e2) := by
        have h1 : ((num.natAbs : Nat) : Int) = num := by omega
        have h2 : num ≤ hi * ((fracDen e1 : Int) * (fracDen e2 : Int)) := by
          rw [← hnum]; nlinarith
        have h3 : ((num.natAbs : Nat) : Int) ≤
            ((hi.toNat : Nat) : Int) * ((fracDen e1 : Int) * (fracDen e2 : Int)) := by
          rw [h1, hc]; exact h2
        exact_mod_cast h3
      obtain ⟨m, e, heq, hb⟩ := toDouble_bound false num.natAbs _ hi.toNat hpos hden hbound
        (by omega)
      rw [decide_eq_false hneg, heq]
      simp only [Dbl.within, signedNum, Bool.false_eq_true, if_false]
      have hb2 : ((fracNum m e : Nat) : Int) ≤ hi * (fracDen e : Int) := by
        rw [← hc]; exact_mod_cast hb
      have hde := fracDen_pos e
      have hn0 : (0 : Int) ≤ (fracNum m e : Int) := Int.ofNat_nonneg _
      constructor
      · have := mul_nonneg (show (0 : Int) ≤ 1 - lo by omega) (le_of_lt hde)
        linarith
      · exact hb2

/-! ## The mixture -/

theorem lit_zero : lit 0 0 = .fin false 0 0 := by decide

theorem lit_one : lit 1 0 = .fin false 4503599627370496 (-52) := by decide

theorem minus_two : toDouble true 2 1 = .fin true 4503599627370496 (-51) := by decide

theorem one_within : (lit 1 0).within 1 1 := by
  rw [lit_one]
  simp only [Dbl.within]
  decide

theorem bounds_within (x : Dbl) (h0 : (lit 0 0).le x = true) (h1 : x.le (lit 1 0) = true) :
    x.within 0 1 := by
  rw [lit_zero] at h0
  rw [lit_one] at h1
  cases x with
  | inf neg => cases neg <;> simp [Dbl.le] at h0 h1
  | nan neg => simp [Dbl.le] at h0
  | fin neg m e =>
    simp only [Dbl.le, decide_eq_true_eq, signedNum_zero] at h0 h1
    have e1 : signedNum false 4503599627370496 (-52) = 4503599627370496 := by
      simp [signedNum, fracNum]
    have e2 : ((fracDen (-52) : Nat) : Int) = 4503599627370496 := by
      simp [fracDen]
    have e3 : ((fracDen 0 : Nat) : Int) = 1 := by simp [fracDen]
    rw [e1, e2] at h1
    rw [e3] at h0
    simp only [Dbl.within]
    constructor <;> omega

theorem within_le_one (x : Dbl) (lo : Int) (h : x.within lo 1) : x.le (lit 1 0) = true := by
  rw [lit_one]
  cases x with
  | inf neg => exact h.elim
  | nan neg => exact h.elim
  | fin neg m e =>
    simp only [Dbl.within] at h
    simp only [Dbl.le, decide_eq_true_eq]
    have e1 : signedNum false 4503599627370496 (-52) = 4503599627370496 := by
      simp [signedNum, fracNum]
    have e2 : ((fracDen (-52) : Nat) : Int) = 4503599627370496 := by
      simp [fracDen]
    rw [e1, e2]
    omega

theorem within_ge_minus_two (x : Dbl) (hi : Int) (h : x.within (-2) hi) :
    (toDouble true 2 1).le x = true := by
  rw [minus_two]
  cases x with
  | inf neg => exact h.elim
  | nan neg => exact h.elim
  | fin neg m e =>
    simp only [Dbl.within] at h
    simp only [Dbl.le, decide_eq_true_eq]
    have e1 : signedNum true 4503599627370496 (-51) = -4503599627370496 := by
      simp [signedNum, fracNum]
    have e2 : ((fracDen (-51) : Nat) : Int) = 2251799813685248 := by
      simp [fracDen]
    rw [e1, e2]
    omega

theorem lastFraction_within (b s1 s2 : Dbl) (hb : fBkg.holds b) (h1 : f1S.holds s1)
    (h2 : f2S.holds s2) : ((((lit 1 0).sub b).sub s1).sub s2).within (-2) 1 := by
  have wb := bounds_within b hb.1 hb.2
  have w1 := bounds_within s1 h1.1 h1.2
  have w2 := bounds_within s2 h2.1 h2.2
  have a1 := sub_within (lit 1 0) b 1 1 one_within wb (by decide) (by decide) (by norm_num)
    (by norm_num)
  have a2 := sub_within _ s1 (1 - 1) 1 a1 w1 (by decide) (by decide) (by norm_num) (by norm_num)
  have a3 := sub_within _ s2 (1 - 1 - 1) 1 a2 w2 (by decide) (by decide) (by norm_num)
    (by norm_num)
  exact a3

/-- C10, amended: for values of `fBkg`, `f1S` and `f2S` within their declared
bounds, the implied fraction of `sigCB3S`, one minus the three fractions in
double arithmetic, lies between `-2` and `1`, and the four fractions of
`fullModel` all lie in `[0, 1]` exactly when the implied fraction is not
negative. The bounds do not ensure this: the implied fraction is `-2` at
`fBkg = f1S = f2S = 1` and negative at `0.3`, `0.6`, `0.1`; at the start values
`0.5`, `0.2`, `0.15` it is `0.15`. -/
theorem fractions_bounded (b s1 s2 : Dbl) (hb : fBkg.holds b) (h1 : f1S.holds s1)
    (h2 : f2S.holds s2) :
    fullModelFractions b s1 s2 = [b, s1, s2, (((lit 1 0).sub b).sub s1).sub s2] ∧
    (toDouble true 2 1).le ((((lit 1 0).sub b).sub s1).sub s2) = true ∧
    ((((lit 1 0).sub b).sub s1).sub s2).le (lit 1 0) = true ∧
    ((∀ f ∈ fullModelFractions b s1 s2, (lit 0 0).le f = true ∧ f.le (lit 1 0) = true) ↔
      (lit 0 0).le ((((lit 1 0).sub b).sub s1).sub s2) = true) ∧
    fullModelFractions fBkg.init f1S.init f2S.init = [lit 5 1, lit 2 1, lit 15 2, lit 15 2] ∧
    fullModelFractions (lit 1 0) (lit 1 0) (lit 1 0) =
      [lit 1 0, lit 1 0, lit 1 0, toDouble true 2 1] ∧
    (lastFraction [lit 3 1, lit 6 1, lit 1 1]).lt (lit 0 0) = true := by
  have hw := lastFraction_within b s1 s2 hb h1 h2
  have hle := within_le_one _ _ hw
  have hfr : fullModelFractions b s1 s2 = [b, s1, s2, (((lit 1 0).sub b).sub s1).sub s2] := rfl
  refine ⟨hfr, within_ge_minus_two _ _ hw, hle, ?_, by decide, by decide, by decide⟩
  rw [hfr]
  constructor
  · intro h
    exact (h _ (by simp)).1
  · intro h f hf
    simp only [List.mem_cons, List.mem_singleton, List.not_mem_nil, or_false] at hf
    rcases hf with rfl | rfl | rfl | rfl
    · exact hb
    · exact h1
    · exact h2
    · exact ⟨h, hle⟩

/-- The start values of the three fractions. -/
theorem fractions_bounded_witness :
    fBkg.holds (lit 5 1) ∧ f1S.holds (lit 2 1) ∧ f2S.holds (lit 15 2) ∧
    (((lit 1 0).sub (lit 5 1)).sub (lit 2 1)).sub (lit 15 2) = lit 15 2 ∧
    (fullModelFractions (lit 5 1) (lit 2 1) (lit 15 2) =
        [lit 5 1, lit 2 1, lit 15 2, (((lit 1 0).sub (lit 5 1)).sub (lit 2 1)).sub (lit 15 2)] ∧
      (toDouble true 2 1).le ((((lit 1 0).sub (lit 5 1)).sub (lit 2 1)).sub (lit 15 2)) = true ∧
      ((((lit 1 0).sub (lit 5 1)).sub (lit 2 1)).sub (lit 15 2)).le (lit 1 0) = true ∧
      ((∀ f ∈ fullModelFractions (lit 5 1) (lit 2 1) (lit 15 2),
          (lit 0 0).le f = true ∧ f.le (lit 1 0) = true) ↔
        (lit 0 0).le ((((lit 1 0).sub (lit 5 1)).sub (lit 2 1)).sub (lit 15 2)) = true) ∧
      fullModelFractions fBkg.init f1S.init f2S.init = [lit 5 1, lit 2 1, lit 15 2, lit 15 2] ∧
      fullModelFractions (lit 1 0) (lit 1 0) (lit 1 0) =
        [lit 1 0, lit 1 0, lit 1 0, toDouble true 2 1] ∧
      (lastFraction [lit 3 1, lit 6 1, lit 1 1]).lt (lit 0 0) = true) :=
  ⟨by unfold Param.holds; decide, by unfold Param.holds; decide, by unfold Param.holds; decide,
    by decide,
    fractions_bounded (lit 5 1) (lit 2 1) (lit 15 2) (by unfold Param.holds; decide)
      (by unfold Param.holds; decide) (by unfold Param.holds; decide)⟩

/-- All three fractions at their upper bound: the implied fraction is `-2`. -/
theorem fractions_out_of_range :
    fBkg.holds (lit 1 0) ∧ f1S.holds (lit 1 0) ∧ f2S.holds (lit 1 0) ∧
    fullModelFractions (lit 1 0) (lit 1 0) (lit 1 0) =
      [lit 1 0, lit 1 0, lit 1 0, toDouble true 2 1] ∧
    (toDouble true 2 1).str = "-2" ∧
    (lit 0 0).le (toDouble true 2 1) = false ∧
    ¬ (∀ f ∈ fullModelFractions (lit 1 0) (lit 1 0) (lit 1 0),
      (lit 0 0).le f = true ∧ f.le (lit 1 0) = true) := by
  refine ⟨by unfold Param.holds; decide, by unfold Param.holds; decide,
    by unfold Param.holds; decide, by decide, by decide, by decide, ?_⟩
  intro h
  have h2 := (h (toDouble true 2 1) (by decide)).1
  revert h2
  decide

end MassFits
